import Mathlib

/-!
# The fine frequency error estimator `dab_ofdm_ffe_all_in_one`

A shallow embedding of `src/lib/dab_ofdm_ffe_all_in_one.cc` and the properties of the
estimator proved about it.

Conventions of the embedding.

* `float` values are elements of an arbitrary linearly ordered field `K` (exact arithmetic;
  the rationals make every definition executable, the reals are the intended reading).
* `unsigned int` values are natural numbers and every operation that can leave the range
  is reduced modulo `2 ^ 32` explicitly.
* `gr_complex` is a pair of `K`.
* `M_PI` (`math.h`) and `gr_fast_atan2f` (`gr_math.h`) are not part of the sources; they are
  the two fields of `gr_math`, a parameter of every function that uses them.
* `fprintf (stderr, ...)` appends a `log_line` to the list an iteration returns.
* A pointer into the sample stream is the function that sends a subscript to the sample at
  that distance from the pointer: an `int` subscript can point backwards, an `unsigned int`
  subscript is a distance forwards (pointers are wider than 32 bits).
* Definitions whose names start with `spec_` follow the words of the specification and are
  compared with the code; definitions whose names start with `example_` are concrete inputs.
-/

namespace GrDab

/-- Number of values of an `unsigned int` (and of an `int`). -/
def UINT_RANGE : Nat := 4294967296

/-- Conversion of an `unsigned int` value to `int` (two's complement). -/
def to_int (n : Nat) : Int :=
  if n % UINT_RANGE < 2147483648 then (n % UINT_RANGE : Nat) else ((n % UINT_RANGE : Nat) : Int) - 4294967296

/-- Conversion of an `int` value to `unsigned int`, as in the usual arithmetic conversions
when the other operand is an `unsigned int`. -/
def to_uint (i : Int) : Nat := (i % 4294967296).toNat

/-- Subtraction of two `unsigned int` values. -/
def uint_sub (a b : Nat) : Nat := (a % UINT_RANGE + UINT_RANGE - b % UINT_RANGE) % UINT_RANGE

/-- Increment of an `unsigned int` value (`x++`). -/
def uint_incr (a : Nat) : Nat := (a + 1) % UINT_RANGE

/-- A complex sample, `gr_complex` (`std::complex<float>`). -/
structure gr_complex (K : Type) where
  re : K
  im : K
deriving DecidableEq, Repr

/-- What the block takes from `math.h` and `gr_math.h`. -/
structure gr_math (K : Type) where
  /-- the constant `M_PI` -/
  M_PI : K
  /-- `gr_fast_atan2f (y, x)` -/
  gr_fast_atan2f : K → K → K

/-- The lines the block prints on `stderr`. -/
inductive log_line (K : Type) where
  /-- "switch detected: neg -> pos" -/
  | switch_neg_pos : log_line K
  /-- "switch detected: pos -> neg" -/
  | switch_pos_neg : log_line K
  /-- "d_estimated_error: %f (%3.2f Hz)" with its two arguments -/
  | estimated_error (error : K) (hz : K) : log_line K
deriving DecidableEq, Repr

/-- Modelled from the spec: the class declaration (`dab_ofdm_ffe_all_in_one.h`) is not part
of the sources. The members are those the constructor initialises (line 50), the fields of
the data model of the specification: each member initialised from a constructor argument
has the type of that argument, the two counters are integers, taken as `unsigned int` like
the lengths they are compared with, and the three accumulators are `float`. -/
structure dab_ofdm_ffe_all_in_one (K : Type) where
  d_symbol_length : Nat
  d_fft_length : Nat
  d_num_symbols : Nat
  d_alpha : K
  d_sample_rate : Nat
  d_cur_symbol : Nat
  d_cur_sample : Nat
  d_ffs_error_sum : K
  d_estimated_error : K
  d_estimated_error_per_sample : K
deriving DecidableEq, Repr

section defs

variable {K : Type} [LinearOrderedField K]

/-- Sum of two samples. -/
def gr_complex.add (a b : gr_complex K) : gr_complex K :=
  ⟨a.re + b.re, a.im + b.im⟩

/-- Product of two samples. -/
def gr_complex.mul (a b : gr_complex K) : gr_complex K :=
  ⟨a.re * b.re - a.im * b.im, a.re * b.im + a.im * b.re⟩

/-- Complex conjugate, `conj`. -/
def conj (a : gr_complex K) : gr_complex K :=
  ⟨a.re, -a.im⟩

/-- The constructor (lines 46-53): the counters start at `num_symbols` and `0`, the three
accumulators at `0`. -/
def dab_make_ofdm_ffe_all_in_one (symbol_length fft_length num_symbols : Nat) (alpha : K)
    (sample_rate : Nat) : dab_ofdm_ffe_all_in_one K :=
  { d_symbol_length := symbol_length
    d_fft_length := fft_length
    d_num_symbols := num_symbols
    d_alpha := alpha
    d_sample_rate := sample_rate
    d_cur_symbol := num_symbols
    d_cur_sample := 0
    d_ffs_error_sum := 0
    d_estimated_error := 0
    d_estimated_error_per_sample := 0 }

/-- The local `cp_length` of `calc_ffe_estimate` (line 58): an `unsigned int` difference
stored in an `int`. -/
def cp_length (blk : dab_ofdm_ffe_all_in_one K) : Int :=
  to_int (uint_sub blk.d_symbol_length blk.d_fft_length)

/-- The loop of `calc_ffe_estimate` (lines 60-62) with `n` iterations left, that is with
`i = -n`: each iteration adds `in[i-d_fft_length] * conj(in[i])` to `sum`. In the subscript
`i-d_fft_length` the `int` `i` meets the `unsigned int` `d_fft_length`: `i` is converted to
`unsigned int` and the difference is taken modulo `2 ^ 32`, so for a negative `i` the
subscript is the `unsigned int` value `2 ^ 32 + i - d_fft_length`. The subscript of `in[i]`
is the `int` `i` itself. -/
def calc_ffe_loop (d_fft_length : Nat) (inp : Int → gr_complex K) :
    Nat → gr_complex K → gr_complex K
  | 0, sum => sum
  | n + 1, sum =>
    calc_ffe_loop d_fft_length inp n
      (sum.add ((inp ((uint_sub (to_uint (-((n : Int) + 1))) d_fft_length : Nat) : Int)).mul
        (conj (inp (-((n : Int) + 1))))))

/-- The function `calc_ffe_estimate` (lines 55-65). The loop starts at `i = -cp_length` and
runs while `i < 0`, so it makes `cp_length` iterations when that is positive and none
otherwise. `gr_fast_atan2f(sum)` is `gr_fast_atan2f` of the imaginary and the real part. -/
def calc_ffe_estimate (m : gr_math K) (blk : dab_ofdm_ffe_all_in_one K)
    (inp : Int → gr_complex K) : K :=
  let sum := calc_ffe_loop blk.d_fft_length inp (cp_length blk).toNat ⟨0, 0⟩
  m.gr_fast_atan2f sum.im sum.re

/-- Lines 84-88: a trigger byte equal to 1 starts a new frame. -/
def frame_start (blk : dab_ofdm_ffe_all_in_one K) (trigger : Int) : dab_ofdm_ffe_all_in_one K :=
  if trigger = 1 then
    { blk with d_cur_symbol := 0, d_cur_sample := 0, d_ffs_error_sum := 0 }
  else blk

/-- Lines 99-104, the value of `new_estimate` after them: the new estimate is moved by a
full turn towards the running average `d_ffs_error_sum/d_cur_symbol`. -/
def unwrap_new_estimate (M_PI : K) (d_cur_symbol : Nat) (d_ffs_error_sum new_estimate : K) : K :=
  if 0 < d_cur_symbol then
    if d_ffs_error_sum < 0 ∧ new_estimate > 0 ∧
        new_estimate - d_ffs_error_sum / (d_cur_symbol : K) > M_PI then
      new_estimate - 2 * M_PI
    else if d_ffs_error_sum > 0 ∧ new_estimate < 0 ∧
        d_ffs_error_sum / (d_cur_symbol : K) - new_estimate > M_PI then
      new_estimate + 2 * M_PI
    else new_estimate
  else new_estimate

/-- Lines 95-107: inside the window the estimate of the symbol that just ended is added to
`d_ffs_error_sum`. -/
def accumulate (m : gr_math K) (blk : dab_ofdm_ffe_all_in_one K) (inp : Int → gr_complex K) :
    dab_ofdm_ffe_all_in_one K :=
  if blk.d_cur_symbol < blk.d_num_symbols then
    { blk with
      d_ffs_error_sum :=
        blk.d_ffs_error_sum +
          unwrap_new_estimate m.M_PI blk.d_cur_symbol blk.d_ffs_error_sum
            (calc_ffe_estimate m blk inp) }
  else blk

/-- Lines 120-126, the value of `d_estimated_error` after them and what they print: the
published estimate is moved by a full turn towards the average of the window. -/
def switch_detect (M_PI : K) (d_estimated_error d_ffs_error_sum : K) : K × List (log_line K) :=
  if d_estimated_error < 0 ∧ d_ffs_error_sum > 0 ∧
      d_ffs_error_sum - d_estimated_error > M_PI then
    (d_estimated_error + 2 * M_PI, [log_line.switch_neg_pos])
  else if d_estimated_error > 0 ∧ d_ffs_error_sum < 0 ∧
      d_estimated_error - d_ffs_error_sum > M_PI then
    (d_estimated_error - 2 * M_PI, [log_line.switch_pos_neg])
  else (d_estimated_error, [])

/-- Lines 131-134, the value of `d_estimated_error` after them: fast adjustment when the
estimate is exactly zero, slow adjustment otherwise. -/
def adjust (d_alpha d_estimated_error d_ffs_error_sum : K) : K :=
  if d_estimated_error = 0 then d_ffs_error_sum
  else d_alpha * d_ffs_error_sum + (1 - d_alpha) * d_estimated_error

/-- Lines 109-138: on the last symbol of the window the sum becomes the average and the
published estimate is updated. -/
def update_estimated_error (m : gr_math K) (blk : dab_ofdm_ffe_all_in_one K) :
    dab_ofdm_ffe_all_in_one K × List (log_line K) :=
  if blk.d_cur_symbol = uint_sub blk.d_num_symbols 1 then
    let average := blk.d_ffs_error_sum / (blk.d_num_symbols : K)
    let sw := switch_detect m.M_PI blk.d_estimated_error average
    let estimated_error := adjust blk.d_alpha sw.1 average
    let per_sample := estimated_error / (blk.d_fft_length : K)
    ({ blk with
        d_ffs_error_sum := average
        d_estimated_error := estimated_error
        d_estimated_error_per_sample := per_sample },
      sw.2 ++ [log_line.estimated_error estimated_error
        (per_sample * (blk.d_sample_rate : K) / (2 * m.M_PI))])
  else (blk, [])

/-- Lines 93-140: the body of `if (d_cur_sample==d_symbol_length)`. -/
def new_symbol (m : gr_math K) (blk : dab_ofdm_ffe_all_in_one K) (inp : Int → gr_complex K) :
    dab_ofdm_ffe_all_in_one K × List (log_line K) :=
  let b1 := { blk with d_cur_sample := 0 }
  let b2 := accumulate m b1 inp
  let r := update_estimated_error m b2
  ({ r.1 with d_cur_symbol := uint_incr r.1.d_cur_symbol }, r.2)

/-- Lines 84-92 up to the test: the block after the trigger has been handled and
`d_cur_sample` incremented. -/
def count_sample (blk : dab_ofdm_ffe_all_in_one K) (trigger : Int) : dab_ofdm_ffe_all_in_one K :=
  let b1 := frame_start blk trigger
  { b1 with d_cur_sample := uint_incr b1.d_cur_sample }

/-- One iteration of the loop of `work` (lines 84-144): `inp` is `iptr`, `trigger` is the
byte `*trigger`. The result is the block, the value written to `*optr` and the lines
printed. -/
def work_iter (m : gr_math K) (blk : dab_ofdm_ffe_all_in_one K) (inp : Int → gr_complex K)
    (trigger : Int) : dab_ofdm_ffe_all_in_one K × K × List (log_line K) :=
  let b2 := count_sample blk trigger
  let r := if b2.d_cur_sample = b2.d_symbol_length then new_symbol m b2 inp else (b2, [])
  (r.1, r.1.d_estimated_error_per_sample, r.2)

/-- The loop of `work` (lines 83-145) with `n` iterations left: `input0` and `input1` are
the two input buffers, `iptr` and `trigger` the positions of the two pointers. The result is
the block, the values written through `optr` and the lines printed per iteration. -/
def work_loop (m : gr_math K) (input0 : Int → gr_complex K) (input1 : Int → Int) :
    Nat → Int → Int → dab_ofdm_ffe_all_in_one K →
      dab_ofdm_ffe_all_in_one K × List K × List (List (log_line K))
  | 0, _, _, blk => (blk, [], [])
  | n + 1, iptr, trigger, blk =>
    let r := work_iter m blk (fun j => input0 (iptr + j)) (input1 trigger)
    let rest := work_loop m input0 input1 n (iptr + 1) (trigger + 1) r.1
    (rest.1, r.2.1 :: rest.2.1, r.2.2 :: rest.2.2)

/-- The function `work` (lines 68-148): both pointers first skip the `d_symbol_length` old
samples of the history. The last component is the return value. -/
def work (m : gr_math K) (blk : dab_ofdm_ffe_all_in_one K) (noutput_items : Nat)
    (input0 : Int → gr_complex K) (input1 : Int → Int) :
    dab_ofdm_ffe_all_in_one K × List K × List (List (log_line K)) × Nat :=
  let r := work_loop m input0 input1 noutput_items blk.d_symbol_length blk.d_symbol_length blk
  (r.1, r.2.1, r.2.2, noutput_items)

/-- The block `j` iterations into the window of the scenario in which every symbol has the
estimate `theta` and nothing has been published yet. -/
def scenario_block (blk : dab_ofdm_ffe_all_in_one K) (theta : K) (j : Nat) :
    dab_ofdm_ffe_all_in_one K :=
  { blk with
    d_cur_symbol := j / blk.d_symbol_length
    d_cur_sample := j % blk.d_symbol_length
    d_ffs_error_sum := ((j / blk.d_symbol_length : Nat) : K) * theta
    d_estimated_error := 0
    d_estimated_error_per_sample := 0 }

/-- A stand-in for `gr_fast_atan2f` that every ordered field has: the imaginary part, which
is the angle to first order when the real part is near 1. -/
def example_atan2f (y _x : K) : K := y

/-- Samples for the scenario with `symbol_length = 10` and `fft_length = 8`: at the end of
every symbol the loop of `calc_ffe_estimate` reads `in[-2]` and `in[-1]`, which are 1 here,
and `in[4294967286]` and `in[4294967287]`, which are `1/40` times the imaginary unit, so
the two products add up to `1/20` times the imaginary unit. -/
def example_input0 (p : Int) : gr_complex K :=
  if p % 10 = 5 ∨ p % 10 = 6 then ⟨0, 1 / 40⟩ else ⟨1, 0⟩

/-- A trigger stream that is set at position `first` only. -/
def example_input1 (first : Int) (p : Int) : Int :=
  if p = first then 1 else 0

/-- Samples without any rotation. -/
def example_flat (_p : Int) : gr_complex K := ⟨1, 0⟩

/-- Samples for `symbol_length = 2` and `fft_length = 1` whose first two symbols after the
history have the products `3` and `-3` times the imaginary unit: the symbols end with the
pointer at the positions 3 and 5, where the loop of `calc_ffe_estimate` reads `in[-1]` and
`in[4294967294]`. -/
def example_straddle (p : Int) : gr_complex K :=
  if p = 4294967297 then ⟨0, 3⟩ else if p = 4294967299 then ⟨0, -3⟩ else ⟨1, 0⟩

/-- A block with `symbol_length = 2`, `fft_length = 1` and `alpha = 1/10` one sample before
a symbol boundary. -/
def example_block (num_symbols cur_symbol : Nat) (ffs_error_sum estimated_error : K) :
    dab_ofdm_ffe_all_in_one K :=
  { d_symbol_length := 2
    d_fft_length := 1
    d_num_symbols := num_symbols
    d_alpha := 1 / 10
    d_sample_rate := 1
    d_cur_symbol := cur_symbol
    d_cur_sample := 1
    d_ffs_error_sum := ffs_error_sum
    d_estimated_error := estimated_error
    d_estimated_error_per_sample := estimated_error }

/-- The subscripts at which the loop of `calc_ffe_estimate` (lines 60-62) reads `in` when it
has `n` iterations left: the iteration with `i = -(n+1)` reads `in[i-d_fft_length]`, whose
subscript is the `unsigned int` difference, and `in[i]`. -/
def calc_ffe_reads (d_fft_length : Nat) : Nat → List Int
  | 0 => []
  | n + 1 =>
    ((uint_sub (to_uint (-((n : Int) + 1))) d_fft_length : Nat) : Int) :: (-((n : Int) + 1)) ::
      calc_ffe_reads d_fft_length n

/-- The argument of `set_history` in the constructor (line 52). The framework then hands
`work` input buffers of `noutput_items + history - 1` items. -/
def history (symbol_length : Nat) : Nat := symbol_length + 1

/-- A trigger stream that is set at the positions `first` and `second` only. -/
def example_input1_twice (first second : Int) (p : Int) : Int :=
  if p = first ∨ p = second then 1 else 0

/-- The unwrapped estimate of a symbol in the words of the specification (step 3a): with
`running_avg = error_sum / current_symbol_index`, taken only when `current_symbol_index` is
positive, `2π` is subtracted from the new estimate if `running_avg < 0`, the estimate is
positive and `new_estimate − running_avg > π`, and `2π` is added in the mirrored case. -/
def spec_unwrapped_estimate (M_PI : K) (current_symbol_index : Nat)
    (error_sum new_estimate : K) : K :=
  if 0 < current_symbol_index then
    if error_sum / (current_symbol_index : K) < 0 ∧ new_estimate > 0 ∧
        new_estimate - error_sum / (current_symbol_index : K) > M_PI then
      new_estimate - 2 * M_PI
    else if error_sum / (current_symbol_index : K) > 0 ∧ new_estimate < 0 ∧
        error_sum / (current_symbol_index : K) - new_estimate > M_PI then
      new_estimate + 2 * M_PI
    else new_estimate
  else new_estimate

/-- The running sum of the unwrapped estimates of the symbols `0 .. k-1` of a window, in the
words of the specification; `estimate j` is the raw estimate of symbol `j`. -/
def spec_running_sum (M_PI : K) (estimate : Nat → K) : Nat → K
  | 0 => 0
  | k + 1 =>
    spec_running_sum M_PI estimate k +
      spec_unwrapped_estimate M_PI k (spec_running_sum M_PI estimate k) (estimate k)

/-- The raw estimate of symbol `k` of the window that a trigger in the first iteration of
`work` starts: `calc_ffe_estimate` at the pointer of the iteration that is the last of that
symbol. -/
def symbol_estimate (m : gr_math K) (blk : dab_ofdm_ffe_all_in_one K)
    (input0 : Int → gr_complex K) (k : Nat) : K :=
  calc_ffe_estimate m blk
    (fun j => input0 ((blk.d_symbol_length : Int) +
      (((k + 1) * blk.d_symbol_length - 1 : Nat) : Int) + j))

/-- Samples for `symbol_length = 10` and `fft_length = 8` that are 1 at every position but
the one, 4294967286 places after the pointer at position 0, that is read as
`in[i-d_fft_length]` with `i = -2`. -/
def example_far (p : Int) : gr_complex K :=
  if p = 4294967286 then ⟨0, 1⟩ else ⟨1, 0⟩

/-- Samples for `symbol_length = 2` and `fft_length = 1` in which the sample before the
pointer is the sample two places before the pointer turned by a quarter of a circle. -/
def example_turned (p : Int) : gr_complex K :=
  if p = -2 then ⟨1, 0⟩ else ⟨0, 1⟩

end defs

/-- The number of iterations of the loop of `calc_ffe_estimate` is at most the difference
of the two lengths. -/
theorem cp_length_le {K : Type} (blk : dab_ofdm_ffe_all_in_one K)
    (h : blk.d_fft_length ≤ blk.d_symbol_length) :
    (cp_length blk).toNat ≤ blk.d_symbol_length - blk.d_fft_length := by
  unfold cp_length to_int uint_sub UINT_RANGE
  split <;> omega

section lemmas

variable {K : Type} [LinearOrderedField K]

theorem uint_sub_one (n : Nat) (h1 : 1 ≤ n) (h2 : n < UINT_RANGE) : uint_sub n 1 = n - 1 := by
  unfold uint_sub UINT_RANGE at *
  omega

theorem frame_start_clear (blk : dab_ofdm_ffe_all_in_one K) (trigger : Int) (h : trigger ≠ 1) :
    frame_start blk trigger = blk := by
  simp [frame_start, h]

@[simp]
theorem frame_start_symbol_length (blk : dab_ofdm_ffe_all_in_one K) (t : Int) :
    (frame_start blk t).d_symbol_length = blk.d_symbol_length := by
  unfold frame_start; split <;> rfl

@[simp]
theorem frame_start_fft_length (blk : dab_ofdm_ffe_all_in_one K) (t : Int) :
    (frame_start blk t).d_fft_length = blk.d_fft_length := by
  unfold frame_start; split <;> rfl

@[simp]
theorem frame_start_num_symbols (blk : dab_ofdm_ffe_all_in_one K) (t : Int) :
    (frame_start blk t).d_num_symbols = blk.d_num_symbols := by
  unfold frame_start; split <;> rfl

@[simp]
theorem frame_start_alpha (blk : dab_ofdm_ffe_all_in_one K) (t : Int) :
    (frame_start blk t).d_alpha = blk.d_alpha := by
  unfold frame_start; split <;> rfl

@[simp]
theorem frame_start_sample_rate (blk : dab_ofdm_ffe_all_in_one K) (t : Int) :
    (frame_start blk t).d_sample_rate = blk.d_sample_rate := by
  unfold frame_start; split <;> rfl

@[simp]
theorem frame_start_estimated_error (blk : dab_ofdm_ffe_all_in_one K) (t : Int) :
    (frame_start blk t).d_estimated_error = blk.d_estimated_error := by
  unfold frame_start; split <;> rfl

@[simp]
theorem frame_start_per_sample (blk : dab_ofdm_ffe_all_in_one K) (t : Int) :
    (frame_start blk t).d_estimated_error_per_sample = blk.d_estimated_error_per_sample := by
  unfold frame_start; split <;> rfl

@[simp]
theorem accumulate_estimated_error (m : gr_math K) (blk : dab_ofdm_ffe_all_in_one K)
    (inp : Int → gr_complex K) :
    (accumulate m blk inp).d_estimated_error = blk.d_estimated_error := by
  unfold accumulate; split <;> rfl

@[simp]
theorem accumulate_per_sample (m : gr_math K) (blk : dab_ofdm_ffe_all_in_one K)
    (inp : Int → gr_complex K) :
    (accumulate m blk inp).d_estimated_error_per_sample = blk.d_estimated_error_per_sample := by
  unfold accumulate; split <;> rfl

/-- The estimate of a symbol depends on the block through the two lengths only. -/
theorem calc_ffe_estimate_congr (m : gr_math K) (a b : dab_ofdm_ffe_all_in_one K)
    (inp : Int → gr_complex K) (h1 : a.d_symbol_length = b.d_symbol_length)
    (h2 : a.d_fft_length = b.d_fft_length) :
    calc_ffe_estimate m a inp = calc_ffe_estimate m b inp := by
  simp [calc_ffe_estimate, cp_length, h1, h2]

@[simp]
theorem calc_ffe_estimate_count_sample (m : gr_math K) (blk : dab_ofdm_ffe_all_in_one K)
    (inp : Int → gr_complex K) (t : Int) (c : Nat) :
    calc_ffe_estimate m { count_sample blk t with d_cur_sample := c } inp =
      calc_ffe_estimate m blk inp :=
  calc_ffe_estimate_congr m _ _ inp (by simp [count_sample]) (by simp [count_sample])

theorem work_iter_inside (m : gr_math K) (blk : dab_ofdm_ffe_all_in_one K)
    (inp : Int → gr_complex K) (t : Int)
    (h : (count_sample blk t).d_cur_sample ≠ blk.d_symbol_length) :
    work_iter m blk inp t =
      (count_sample blk t, blk.d_estimated_error_per_sample, []) := by
  have h' : (count_sample blk t).d_cur_sample ≠ (count_sample blk t).d_symbol_length := by
    simpa [count_sample] using h
  simp [work_iter, h']
  simp [count_sample]

theorem work_iter_boundary (m : gr_math K) (blk : dab_ofdm_ffe_all_in_one K)
    (inp : Int → gr_complex K) (t : Int)
    (h : (count_sample blk t).d_cur_sample = blk.d_symbol_length) :
    work_iter m blk inp t =
      ((new_symbol m (count_sample blk t) inp).1,
        (new_symbol m (count_sample blk t) inp).1.d_estimated_error_per_sample,
        (new_symbol m (count_sample blk t) inp).2) := by
  have h' : (count_sample blk t).d_cur_sample = (count_sample blk t).d_symbol_length := by
    simpa [count_sample] using h
  simp [work_iter, h']

/-- A symbol boundary that is not the last of the window: the sum may grow, nothing is
published and nothing is printed. -/
theorem new_symbol_not_last (m : gr_math K) (blk : dab_ofdm_ffe_all_in_one K)
    (inp : Int → gr_complex K) (h : blk.d_cur_symbol ≠ uint_sub blk.d_num_symbols 1) :
    new_symbol m blk inp =
      ({ accumulate m { blk with d_cur_sample := 0 } inp with
          d_cur_symbol := uint_incr blk.d_cur_symbol }, []) := by
  have hacc : (accumulate m { blk with d_cur_sample := 0 } inp).d_cur_symbol = blk.d_cur_symbol := by
    unfold accumulate; split <;> rfl
  have hnum : (accumulate m { blk with d_cur_sample := 0 } inp).d_num_symbols = blk.d_num_symbols := by
    unfold accumulate; split <;> rfl
  simp [new_symbol, update_estimated_error, hacc, hnum, h]

/-- The last symbol boundary of the window, written out: `average` is the value of
`d_ffs_error_sum` after line 110 and `estimate` the value of `d_estimated_error` after
line 134. -/
theorem new_symbol_last (m : gr_math K) (blk : dab_ofdm_ffe_all_in_one K)
    (inp : Int → gr_complex K) (h : blk.d_cur_symbol = uint_sub blk.d_num_symbols 1)
    (hlt : blk.d_cur_symbol < blk.d_num_symbols) (average estimate : K)
    (havg : average =
      (blk.d_ffs_error_sum + unwrap_new_estimate m.M_PI blk.d_cur_symbol blk.d_ffs_error_sum
        (calc_ffe_estimate m blk inp)) / (blk.d_num_symbols : K))
    (hest : estimate =
      adjust blk.d_alpha (switch_detect m.M_PI blk.d_estimated_error average).1 average) :
    new_symbol m blk inp =
      ({ blk with
          d_cur_sample := 0
          d_cur_symbol := uint_incr blk.d_cur_symbol
          d_ffs_error_sum := average
          d_estimated_error := estimate
          d_estimated_error_per_sample := estimate / (blk.d_fft_length : K) },
        (switch_detect m.M_PI blk.d_estimated_error average).2 ++
          [log_line.estimated_error estimate
            (estimate / (blk.d_fft_length : K) * (blk.d_sample_rate : K) / (2 * m.M_PI))]) := by
  have hc : calc_ffe_estimate m { blk with d_cur_sample := 0 } inp = calc_ffe_estimate m blk inp :=
    calc_ffe_estimate_congr m _ _ inp rfl rfl
  subst havg hest
  simp [new_symbol, accumulate, update_estimated_error, hlt, h.symm, hc]

/-- The last symbol boundary of the window as an iteration of `work`. -/
theorem work_iter_last (m : gr_math K) (blk : dab_ofdm_ffe_all_in_one K)
    (inp : Int → gr_complex K) (t : Int)
    (hN : 1 ≤ blk.d_num_symbols) (hR : blk.d_num_symbols < UINT_RANGE)
    (hb : (count_sample blk t).d_cur_sample = blk.d_symbol_length)
    (hl : (frame_start blk t).d_cur_symbol = blk.d_num_symbols - 1) (average estimate : K)
    (havg : average =
      ((frame_start blk t).d_ffs_error_sum +
        unwrap_new_estimate m.M_PI (frame_start blk t).d_cur_symbol
          (frame_start blk t).d_ffs_error_sum (calc_ffe_estimate m blk inp)) /
        (blk.d_num_symbols : K))
    (hest : estimate =
      adjust blk.d_alpha (switch_detect m.M_PI blk.d_estimated_error average).1 average) :
    work_iter m blk inp t =
      ({ count_sample blk t with
          d_cur_sample := 0
          d_cur_symbol := uint_incr (frame_start blk t).d_cur_symbol
          d_ffs_error_sum := average
          d_estimated_error := estimate
          d_estimated_error_per_sample := estimate / (blk.d_fft_length : K) },
        estimate / (blk.d_fft_length : K),
        (switch_detect m.M_PI blk.d_estimated_error average).2 ++
          [log_line.estimated_error estimate
            (estimate / (blk.d_fft_length : K) * (blk.d_sample_rate : K) / (2 * m.M_PI))]) := by
  rw [work_iter_boundary m blk inp t hb]
  have h1 : (count_sample blk t).d_cur_symbol = uint_sub (count_sample blk t).d_num_symbols 1 := by
    simp only [count_sample, frame_start_num_symbols]
    rw [uint_sub_one _ hN hR]
    exact hl
  have h2 : (count_sample blk t).d_cur_symbol < (count_sample blk t).d_num_symbols := by
    simp only [count_sample, frame_start_num_symbols]
    omega
  have hc : calc_ffe_estimate m (count_sample blk t) inp = calc_ffe_estimate m blk inp :=
    calc_ffe_estimate_congr m _ _ inp (by simp [count_sample]) (by simp [count_sample])
  rw [new_symbol_last m (count_sample blk t) inp h1 h2 average estimate
    (by rw [havg, hc]; simp [count_sample]) (by rw [hest]; simp [count_sample])]
  simp [count_sample]

theorem succ_div_mod (L j : Nat) (hL : 0 < L) :
    ((j + 1) % L ≠ 0 ∧ (j + 1) / L = j / L ∧ (j + 1) % L = j % L + 1) ∨
      ((j + 1) % L = 0 ∧ (j + 1) / L = j / L + 1 ∧ j % L + 1 = L) := by
  have h1 := Nat.div_add_mod j L
  have h2 := Nat.mod_lt j hL
  by_cases h : j % L + 1 = L
  · right
    have e : j + 1 = L * (j / L + 1) := by
      rw [Nat.mul_add, Nat.mul_one]; omega
    refine ⟨?_, ?_, h⟩
    · rw [e]; exact Nat.mul_mod_right _ _
    · rw [e]; exact Nat.mul_div_cancel_left _ hL
  · left
    have e : j + 1 = (j % L + 1) + L * (j / L) := by omega
    have hlt : j % L + 1 < L := by omega
    have hm : (j + 1) % L = j % L + 1 := by
      rw [e, Nat.add_mul_mod_self_left, Nat.mod_eq_of_lt hlt]
    refine ⟨by omega, ?_, hm⟩
    rw [e, Nat.add_mul_div_left _ _ hL, Nat.div_eq_of_lt hlt]; omega

theorem work_loop_snoc (m : gr_math K) (input0 : Int → gr_complex K) (input1 : Int → Int)
    (n : Nat) : ∀ (iptr trigger : Int) (blk : dab_ofdm_ffe_all_in_one K),
    work_loop m input0 input1 (n + 1) iptr trigger blk =
      ((work_iter m (work_loop m input0 input1 n iptr trigger blk).1
          (fun j => input0 (iptr + (n : Int) + j)) (input1 (trigger + (n : Int)))).1,
        (work_loop m input0 input1 n iptr trigger blk).2.1 ++
          [(work_iter m (work_loop m input0 input1 n iptr trigger blk).1
            (fun j => input0 (iptr + (n : Int) + j)) (input1 (trigger + (n : Int)))).2.1],
        (work_loop m input0 input1 n iptr trigger blk).2.2 ++
          [(work_iter m (work_loop m input0 input1 n iptr trigger blk).1
            (fun j => input0 (iptr + (n : Int) + j)) (input1 (trigger + (n : Int)))).2.2]) := by
  induction n with
  | zero => intro iptr trigger blk; simp [work_loop]
  | succ k ih =>
    intro iptr trigger blk
    rw [work_loop, ih]
    have e1 : ∀ j : Int, iptr + 1 + (k : Int) + j = iptr + ((k + 1 : Nat) : Int) + j := by
      intro j; push_cast; ring
    have e2 : trigger + 1 + (k : Int) = trigger + ((k + 1 : Nat) : Int) := by
      push_cast; ring
    simp only [e1, e2]
    simp [work_loop]

theorem unwrap_same_sign (M_PI : K) (k : Nat) (theta : K) :
    unwrap_new_estimate M_PI k ((k : K) * theta) theta = theta := by
  unfold unwrap_new_estimate
  split
  · rename_i hk
    have hk' : (0 : K) < (k : K) := by exact_mod_cast hk
    have c1 : ¬ ((k : K) * theta < 0 ∧ theta > 0 ∧ theta - (k : K) * theta / (k : K) > M_PI) := by
      rintro ⟨h1, h2, -⟩
      exact absurd (mul_pos hk' h2) (not_lt.mpr h1.le)
    have c2 : ¬ ((k : K) * theta > 0 ∧ theta < 0 ∧ (k : K) * theta / (k : K) - theta > M_PI) := by
      rintro ⟨h1, h2, -⟩
      exact absurd (mul_neg_of_pos_of_neg hk' h2) (not_lt.mpr h1.le)
    rw [if_neg c1, if_neg c2]
  · rfl

theorem scenario_step (m : gr_math K) (blk : dab_ofdm_ffe_all_in_one K) (theta : K)
    (inp : Int → gr_complex K) (t : Int) (j : Nat)
    (hL : 1 ≤ blk.d_symbol_length) (hLR : blk.d_symbol_length < UINT_RANGE)
    (hNR : blk.d_num_symbols < UINT_RANGE)
    (hj : j + 1 < blk.d_num_symbols * blk.d_symbol_length) (ht : t ≠ 1)
    (hest : (j + 1) % blk.d_symbol_length = 0 → calc_ffe_estimate m blk inp = theta) :
    work_iter m (scenario_block blk theta j) inp t = (scenario_block blk theta (j + 1), 0, []) := by
  have hmod := Nat.mod_lt j hL
  have hdiv : (j + 1) / blk.d_symbol_length < blk.d_num_symbols :=
    (Nat.div_lt_iff_lt_mul hL).mpr hj
  have hcs : count_sample (scenario_block blk theta j) t =
      { scenario_block blk theta j with d_cur_sample := j % blk.d_symbol_length + 1 } := by
    have : (j % blk.d_symbol_length + 1) % UINT_RANGE = j % blk.d_symbol_length + 1 := by
      unfold UINT_RANGE at *; omega
    simp only [count_sample, frame_start_clear _ t ht, uint_incr]
    simp only [scenario_block, this]
  rcases succ_div_mod blk.d_symbol_length j hL with ⟨h1, h2, h3⟩ | ⟨h1, h2, h3⟩
  · have hlt := Nat.mod_lt (j + 1) hL
    have hc : (count_sample (scenario_block blk theta j) t).d_cur_sample ≠
        (scenario_block blk theta j).d_symbol_length := by
      rw [hcs]
      show j % blk.d_symbol_length + 1 ≠ blk.d_symbol_length
      omega
    rw [work_iter_inside m _ inp t hc, hcs]
    simp only [scenario_block, h2, h3]
  · have hc : (count_sample (scenario_block blk theta j) t).d_cur_sample =
        (scenario_block blk theta j).d_symbol_length := by
      rw [hcs]
      exact h3
    have hlt : j / blk.d_symbol_length + 1 < blk.d_num_symbols := by omega
    have hl : (count_sample (scenario_block blk theta j) t).d_cur_symbol ≠
        uint_sub (count_sample (scenario_block blk theta j) t).d_num_symbols 1 := by
      rw [hcs]
      show j / blk.d_symbol_length ≠ uint_sub blk.d_num_symbols 1
      have hN1 : 1 ≤ blk.d_num_symbols := le_of_lt (lt_of_le_of_lt (Nat.le_add_left 1 _) hlt)
      rw [uint_sub_one _ hN1 hNR]
      intro h
      rw [h] at hlt
      omega
    have hinc : uint_incr (j / blk.d_symbol_length) = j / blk.d_symbol_length + 1 := by
      unfold uint_incr UINT_RANGE at *
      generalize j / blk.d_symbol_length = q at *
      omega
    have hlt' : j / blk.d_symbol_length < blk.d_num_symbols := by omega
    rw [work_iter_boundary m _ inp t hc, new_symbol_not_last m _ inp hl, hcs]
    have he := hest h1
    simp only [calc_ffe_estimate, cp_length] at he
    simp only [scenario_block, accumulate, hlt', if_true, hinc, h1, h2, calc_ffe_estimate,
      cp_length, he, unwrap_same_sign]
    simp
    ring

theorem scenario_last (m : gr_math K) (blk : dab_ofdm_ffe_all_in_one K) (theta : K)
    (inp : Int → gr_complex K) (t : Int) (j : Nat)
    (hL : 1 ≤ blk.d_symbol_length) (hLR : blk.d_symbol_length < UINT_RANGE)
    (hNR : blk.d_num_symbols < UINT_RANGE)
    (hj : j + 1 = blk.d_num_symbols * blk.d_symbol_length) (ht : t ≠ 1)
    (hest : calc_ffe_estimate m blk inp = theta) :
    (work_iter m (scenario_block blk theta j) inp t).1.d_estimated_error = theta ∧
      (work_iter m (scenario_block blk theta j) inp t).1.d_estimated_error_per_sample =
        theta / (blk.d_fft_length : K) ∧
      (work_iter m (scenario_block blk theta j) inp t).2.1 = theta / (blk.d_fft_length : K) := by
  have hmod := Nat.mod_lt j hL
  have hdiv : (j + 1) / blk.d_symbol_length = blk.d_num_symbols := by
    rw [hj]; exact Nat.mul_div_cancel _ hL
  have hm : (j + 1) % blk.d_symbol_length = 0 := by
    rw [hj]; exact Nat.mul_mod_left _ _
  rcases succ_div_mod blk.d_symbol_length j hL with ⟨h1, _, _⟩ | ⟨_, h2, h3⟩
  · exact absurd hm h1
  have hq : j / blk.d_symbol_length + 1 = blk.d_num_symbols := by rw [← h2, hdiv]
  have hN1 : 1 ≤ blk.d_num_symbols := by rw [← hq]; exact Nat.le_add_left 1 _
  have hcs : count_sample (scenario_block blk theta j) t =
      { scenario_block blk theta j with d_cur_sample := j % blk.d_symbol_length + 1 } := by
    have : (j % blk.d_symbol_length + 1) % UINT_RANGE = j % blk.d_symbol_length + 1 := by
      unfold UINT_RANGE at *; omega
    simp only [count_sample, frame_start_clear _ t ht, uint_incr]
    simp only [scenario_block, this]
  have hb : (count_sample (scenario_block blk theta j) t).d_cur_sample =
      (scenario_block blk theta j).d_symbol_length := by
    rw [hcs]; exact h3
  have hl : (frame_start (scenario_block blk theta j) t).d_cur_symbol =
      (scenario_block blk theta j).d_num_symbols - 1 := by
    rw [frame_start_clear _ t ht]
    show j / blk.d_symbol_length = blk.d_num_symbols - 1
    rw [← hq]; rfl
  have hNK : ((blk.d_num_symbols : Nat) : K) ≠ 0 := by
    have : 0 < blk.d_num_symbols := hN1
    exact_mod_cast this.ne'
  have hcast : ((blk.d_num_symbols : Nat) : K) = ((j / blk.d_symbol_length : Nat) : K) + 1 := by
    rw [← hq]; push_cast; rfl
  have hce : calc_ffe_estimate m (scenario_block blk theta j) inp = theta := by
    rw [calc_ffe_estimate_congr m (scenario_block blk theta j) blk inp rfl rfl, hest]
  have havg : theta =
      ((frame_start (scenario_block blk theta j) t).d_ffs_error_sum +
        unwrap_new_estimate m.M_PI (frame_start (scenario_block blk theta j) t).d_cur_symbol
          (frame_start (scenario_block blk theta j) t).d_ffs_error_sum
          (calc_ffe_estimate m (scenario_block blk theta j) inp)) /
        ((scenario_block blk theta j).d_num_symbols : K) := by
    rw [frame_start_clear _ t ht, hce]
    show theta = (((j / blk.d_symbol_length : Nat) : K) * theta +
      unwrap_new_estimate m.M_PI (j / blk.d_symbol_length)
        (((j / blk.d_symbol_length : Nat) : K) * theta) theta) / (blk.d_num_symbols : K)
    rw [unwrap_same_sign, eq_div_iff hNK, hcast]
    ring
  have hadj : theta = adjust (scenario_block blk theta j).d_alpha
      (switch_detect m.M_PI (scenario_block blk theta j).d_estimated_error theta).1 theta := by
    simp [scenario_block, switch_detect, adjust]
  rw [work_iter_last m (scenario_block blk theta j) inp t hN1 hNR hb hl theta theta havg hadj]
  exact ⟨rfl, rfl, rfl⟩

theorem scenario_first (m : gr_math K) (blk : dab_ofdm_ffe_all_in_one K) (theta : K)
    (inp : Int → gr_complex K) (h1 : blk.d_estimated_error = 0)
    (h2 : blk.d_estimated_error_per_sample = 0) :
    work_iter m blk inp 1 = work_iter m (scenario_block blk theta 0) inp 0 := by
  simp [work_iter, count_sample, frame_start, scenario_block, h1, h2]


/-- The scenario up to the last iteration of the window: the outputs are 0, nothing is
printed, and after at least one iteration the block is `scenario_block`. -/
theorem scenario_run (m : gr_math K) (blk : dab_ofdm_ffe_all_in_one K) (theta : K)
    (input0 : Int → gr_complex K) (input1 : Int → Int) (iptr trigger : Int)
    (hL : 1 ≤ blk.d_symbol_length) (hLR : blk.d_symbol_length < UINT_RANGE)
    (hNR : blk.d_num_symbols < UINT_RANGE)
    (he1 : blk.d_estimated_error = 0) (he2 : blk.d_estimated_error_per_sample = 0)
    (htrig : input1 trigger = 1)
    (hclear : ∀ i : Nat, 1 ≤ i → i < blk.d_num_symbols * blk.d_symbol_length →
      input1 (trigger + (i : Int)) ≠ 1)
    (hest : ∀ j : Nat, j < blk.d_num_symbols * blk.d_symbol_length →
      (j + 1) % blk.d_symbol_length = 0 →
      calc_ffe_estimate m blk (fun i => input0 (iptr + (j : Int) + i)) = theta) (n : Nat) :
    n < blk.d_num_symbols * blk.d_symbol_length →
      (work_loop m input0 input1 n iptr trigger blk).2.1 = List.replicate n 0 ∧
        (work_loop m input0 input1 n iptr trigger blk).2.2 = List.replicate n [] ∧
        (1 ≤ n → (work_loop m input0 input1 n iptr trigger blk).1 = scenario_block blk theta n) := by
  induction n with
  | zero => intro _; simp [work_loop]
  | succ k ih =>
    intro hk
    obtain ⟨ih1, ih2, ih3⟩ := ih (by omega)
    have hstep : work_iter m (work_loop m input0 input1 k iptr trigger blk).1
        (fun j => input0 (iptr + (k : Int) + j)) (input1 (trigger + (k : Int))) =
        (scenario_block blk theta (k + 1), 0, []) := by
      rcases Nat.eq_zero_or_pos k with h0 | hpos
      · subst h0
        simp only [work_loop, Nat.cast_zero, add_zero, htrig]
        rw [scenario_first m blk theta _ he1 he2]
        exact scenario_step m blk theta _ 0 0 hL hLR hNR hk (by decide)
          (fun h => by simpa using hest 0 (by omega) h)
      · rw [ih3 hpos]
        exact scenario_step m blk theta _ _ k hL hLR hNR hk (hclear k hpos (by omega))
          (fun h => hest k (by omega) h)
    rw [work_loop_snoc, hstep, ih1, ih2]
    refine ⟨?_, ?_, fun _ => rfl⟩
    · simp [List.replicate_succ']
    · simp [List.replicate_succ']

theorem accumulate_frame (m : gr_math K) (blk : dab_ofdm_ffe_all_in_one K)
    (inp : Int → gr_complex K) :
    (accumulate m blk inp).d_cur_symbol = blk.d_cur_symbol ∧
      (accumulate m blk inp).d_cur_sample = blk.d_cur_sample ∧
      (accumulate m blk inp).d_num_symbols = blk.d_num_symbols ∧
      (accumulate m blk inp).d_symbol_length = blk.d_symbol_length := by
  unfold accumulate; split <;> exact ⟨rfl, rfl, rfl, rfl⟩

theorem update_estimated_error_frame (m : gr_math K) (blk : dab_ofdm_ffe_all_in_one K) :
    (update_estimated_error m blk).1.d_cur_symbol = blk.d_cur_symbol ∧
      (update_estimated_error m blk).1.d_cur_sample = blk.d_cur_sample ∧
      (update_estimated_error m blk).1.d_num_symbols = blk.d_num_symbols ∧
      (update_estimated_error m blk).1.d_symbol_length = blk.d_symbol_length ∧
      ((∃ e hz, log_line.estimated_error e hz ∈ (update_estimated_error m blk).2) ↔
        blk.d_cur_symbol = uint_sub blk.d_num_symbols 1) := by
  unfold update_estimated_error
  split
  · rename_i h
    refine ⟨rfl, rfl, rfl, rfl, ?_⟩
    simp only [h, iff_true]
    exact ⟨_, _, List.mem_append_right _ (List.mem_singleton.mpr rfl)⟩
  · rename_i h
    refine ⟨rfl, rfl, rfl, rfl, ?_⟩
    simp [h]

/-- The counters after an iteration of `work`, and when the iteration prints the line of
the updated estimate. -/
theorem work_iter_counters (m : gr_math K) (blk : dab_ofdm_ffe_all_in_one K)
    (inp : Int → gr_complex K) (t : Int) :
    (work_iter m blk inp t).1.d_symbol_length = blk.d_symbol_length ∧
      (work_iter m blk inp t).1.d_num_symbols = blk.d_num_symbols ∧
      (work_iter m blk inp t).1.d_cur_sample =
        (if (count_sample blk t).d_cur_sample = blk.d_symbol_length then 0
          else (count_sample blk t).d_cur_sample) ∧
      (work_iter m blk inp t).1.d_cur_symbol =
        (if (count_sample blk t).d_cur_sample = blk.d_symbol_length then
            uint_incr (frame_start blk t).d_cur_symbol
          else (frame_start blk t).d_cur_symbol) ∧
      ((∃ e hz, log_line.estimated_error e hz ∈ (work_iter m blk inp t).2.2) ↔
        (count_sample blk t).d_cur_sample = blk.d_symbol_length ∧
          (frame_start blk t).d_cur_symbol = uint_sub blk.d_num_symbols 1) := by
  by_cases hb : (count_sample blk t).d_cur_sample = blk.d_symbol_length
  · rw [work_iter_boundary m blk inp t hb]
    simp only [hb, if_true, true_and]
    obtain ⟨a1, a2, a3, a4⟩ := accumulate_frame m { count_sample blk t with d_cur_sample := 0 } inp
    obtain ⟨u1, u2, u3, u4, u5⟩ := update_estimated_error_frame m
      (accumulate m { count_sample blk t with d_cur_sample := 0 } inp)
    simp only [new_symbol]
    rw [u4, u3, u2, u1, u5, a4, a3, a2, a1]
    simp [count_sample]
  · rw [work_iter_inside m blk inp t hb]
    simp only [if_neg hb, hb, false_and, iff_false]
    refine ⟨by simp [count_sample], by simp [count_sample], rfl, by simp [count_sample], ?_⟩
    simp


/-- An iteration that starts `n` iterations after the trigger: the counters afterwards and
when the line of the updated estimate is printed. -/
theorem counters_step (m : gr_math K) (b : dab_ofdm_ffe_all_in_one K)
    (inp : Int → gr_complex K) (t : Int) (n : Nat)
    (hL : 1 ≤ b.d_symbol_length)
    (h1 : (count_sample b t).d_cur_sample = n % b.d_symbol_length + 1)
    (h2 : (frame_start b t).d_cur_symbol = n / b.d_symbol_length) :
    (work_iter m b inp t).1.d_cur_sample = (n + 1) % b.d_symbol_length ∧
      ((n + 1) / b.d_symbol_length < UINT_RANGE →
        (work_iter m b inp t).1.d_cur_symbol = (n + 1) / b.d_symbol_length) ∧
      ((∃ e hz, log_line.estimated_error e hz ∈ (work_iter m b inp t).2.2) ↔
        (n + 1) % b.d_symbol_length = 0 ∧ n / b.d_symbol_length = uint_sub b.d_num_symbols 1) := by
  obtain ⟨-, -, c3, c4, c5⟩ := work_iter_counters m b inp t
  rw [c3, c4, c5, h1, h2]
  rcases succ_div_mod b.d_symbol_length n hL with ⟨e1, e2, e3⟩ | ⟨e1, e2, e3⟩
  · have hne : ¬ (n % b.d_symbol_length + 1 = b.d_symbol_length) := by
      have := Nat.mod_lt (n + 1) hL
      omega
    simp only [if_neg hne, e1, false_and, and_false, iff_false, not_false_eq_true, and_true]
    exact ⟨e3.symm, fun _ => e2.symm, by simp [hne]⟩
  · simp only [e3, if_true, e1, true_and]
    refine ⟨fun h => ?_, trivial⟩
    rw [e2] at h ⊢
    unfold uint_incr
    exact Nat.mod_eq_of_lt h

/-- The counters and the printed lines of a stream with the trigger set on the first
iteration and never again, as long as the symbol counter has not wrapped. -/
theorem counters_run (m : gr_math K) (blk : dab_ofdm_ffe_all_in_one K)
    (input0 : Int → gr_complex K) (input1 : Int → Int) (iptr trigger : Int)
    (hL : 1 ≤ blk.d_symbol_length) (hLR : blk.d_symbol_length < UINT_RANGE)
    (htrig : input1 trigger = 1)
    (hclear : ∀ i : Nat, 1 ≤ i → input1 (trigger + (i : Int)) ≠ 1) (n : Nat) :
    n ≤ UINT_RANGE * blk.d_symbol_length →
      (work_loop m input0 input1 n iptr trigger blk).1.d_symbol_length = blk.d_symbol_length ∧
      (work_loop m input0 input1 n iptr trigger blk).1.d_num_symbols = blk.d_num_symbols ∧
      (1 ≤ n → n < UINT_RANGE * blk.d_symbol_length →
        (work_loop m input0 input1 n iptr trigger blk).1.d_cur_sample = n % blk.d_symbol_length ∧
        (work_loop m input0 input1 n iptr trigger blk).1.d_cur_symbol =
          n / blk.d_symbol_length) ∧
      (work_loop m input0 input1 n iptr trigger blk).2.2.length = n ∧
      ∀ (j : Nat) (l : List (log_line K)),
        (work_loop m input0 input1 n iptr trigger blk).2.2[j]? = some l →
        ((∃ e hz, log_line.estimated_error e hz ∈ l) ↔
          (j + 1) % blk.d_symbol_length = 0 ∧
            j / blk.d_symbol_length = uint_sub blk.d_num_symbols 1) := by
  induction n with
  | zero => intro _; simp [work_loop]
  | succ k ih =>
    intro hk
    obtain ⟨i1, i2, i3, i4, i5⟩ := ih (by omega)
    have hklt : k < UINT_RANGE * blk.d_symbol_length := by omega
    have hpre : (count_sample (work_loop m input0 input1 k iptr trigger blk).1
          (input1 (trigger + (k : Int)))).d_cur_sample =
          k % (work_loop m input0 input1 k iptr trigger blk).1.d_symbol_length + 1 ∧
        (frame_start (work_loop m input0 input1 k iptr trigger blk).1
          (input1 (trigger + (k : Int)))).d_cur_symbol =
          k / (work_loop m input0 input1 k iptr trigger blk).1.d_symbol_length := by
      rw [i1]
      rcases Nat.eq_zero_or_pos k with h0 | hpos
      · subst h0
        simp [work_loop, htrig, count_sample, frame_start, uint_incr, UINT_RANGE]
      · obtain ⟨s1, s2⟩ := i3 hpos hklt
        have hm := Nat.mod_lt k hL
        simp only [count_sample, frame_start_clear _ _ (hclear k hpos), s1, s2, uint_incr, and_true]
        apply Nat.mod_eq_of_lt
        omega
    obtain ⟨c1, c2, c3⟩ := counters_step m (work_loop m input0 input1 k iptr trigger blk).1
      (fun j => input0 (iptr + (k : Int) + j)) (input1 (trigger + (k : Int))) k
      (by rw [i1]; exact hL) hpre.1 hpre.2
    obtain ⟨w1, w2, -, -, -⟩ := work_iter_counters m
      (work_loop m input0 input1 k iptr trigger blk).1
      (fun j => input0 (iptr + (k : Int) + j)) (input1 (trigger + (k : Int)))
    rw [i1] at c1 c2 c3 w1
    rw [i2] at c3 w2
    rw [work_loop_snoc]
    refine ⟨w1, w2, ?_, ?_, ?_⟩
    · intro _ hlt
      refine ⟨c1, c2 ?_⟩
      exact (Nat.div_lt_iff_lt_mul hL).mpr hlt
    · simp [i4]
    · intro j l hjl
      simp only at hjl
      rcases Nat.lt_or_ge j k with hjk | hjk
      · rw [List.getElem?_append_left (by rw [i4]; exact hjk)] at hjl
        exact i5 j l hjl
      · rw [List.getElem?_append_right (by rw [i4]; exact hjk), i4] at hjl
        rcases Nat.eq_or_lt_of_le hjk with e | hlt
        · subst e
          simp only [Nat.sub_self, List.getElem?_cons_zero, Option.some.injEq] at hjl
          rw [← hjl]
          exact c3
        · have : j - k = (j - k - 1) + 1 := by omega
          rw [this] at hjl
          simp at hjl

/-- The loop of `calc_ffe_estimate` looks at `in` at the subscripts of `calc_ffe_reads`
only. -/
theorem calc_ffe_loop_congr (d_fft_length : Nat) (inp inp' : Int → gr_complex K) (n : Nat) :
    (∀ j ∈ calc_ffe_reads d_fft_length n, inp j = inp' j) →
      ∀ sum : gr_complex K,
        calc_ffe_loop d_fft_length inp n sum = calc_ffe_loop d_fft_length inp' n sum := by
  induction n with
  | zero => intro _ sum; rfl
  | succ k ih =>
    intro h sum
    have h1 := h ((uint_sub (to_uint (-((k : Int) + 1))) d_fft_length : Nat) : Int)
      (by simp [calc_ffe_reads])
    have h2 := h (-((k : Int) + 1)) (by simp [calc_ffe_reads])
    simp only [calc_ffe_loop, h1, h2]
    exact ih (fun j hj => h j (by simp [calc_ffe_reads, hj])) _

/-- The estimate of a symbol is the same for two sample streams that agree at the
subscripts the loop reads. -/
theorem calc_ffe_estimate_reads (m : gr_math K) (blk : dab_ofdm_ffe_all_in_one K)
    (inp inp' : Int → gr_complex K)
    (h : ∀ j ∈ calc_ffe_reads blk.d_fft_length (cp_length blk).toNat, inp j = inp' j) :
    calc_ffe_estimate m blk inp = calc_ffe_estimate m blk inp' := by
  simp only [calc_ffe_estimate]
  rw [calc_ffe_loop_congr blk.d_fft_length inp inp' _ h]

/-- An iteration of `work` leaves the two lengths, and with them the subscripts the loop of
`calc_ffe_estimate` reads, as they are. -/
theorem work_iter_lengths (m : gr_math K) (blk : dab_ofdm_ffe_all_in_one K)
    (inp : Int → gr_complex K) (t : Int) :
    (work_iter m blk inp t).1.d_symbol_length = blk.d_symbol_length ∧
      (work_iter m blk inp t).1.d_fft_length = blk.d_fft_length ∧
      cp_length (work_iter m blk inp t).1 = cp_length blk := by
  have h : (work_iter m blk inp t).1.d_symbol_length = blk.d_symbol_length ∧
      (work_iter m blk inp t).1.d_fft_length = blk.d_fft_length := by
    simp only [work_iter]
    split
    · simp only [new_symbol, update_estimated_error, accumulate]
      split <;> split <;> simp [count_sample]
    · simp [count_sample]
  exact ⟨h.1, h.2, by simp only [cp_length, h.1, h.2]⟩

/-- An iteration of `work` looks at the samples at the subscripts of `calc_ffe_reads`
only. -/
theorem work_iter_congr (m : gr_math K) (blk : dab_ofdm_ffe_all_in_one K)
    (inp inp' : Int → gr_complex K) (t : Int)
    (h : ∀ j ∈ calc_ffe_reads blk.d_fft_length (cp_length blk).toNat, inp j = inp' j) :
    work_iter m blk inp t = work_iter m blk inp' t := by
  have hc : calc_ffe_estimate m { count_sample blk t with d_cur_sample := 0 } inp =
      calc_ffe_estimate m { count_sample blk t with d_cur_sample := 0 } inp' := by
    apply calc_ffe_estimate_reads
    intro j hj
    apply h
    have e1 : ({ count_sample blk t with d_cur_sample := 0 } :
        dab_ofdm_ffe_all_in_one K).d_fft_length = blk.d_fft_length := by simp [count_sample]
    have e2 : cp_length ({ count_sample blk t with d_cur_sample := 0 } :
        dab_ofdm_ffe_all_in_one K) = cp_length blk := by simp [cp_length, count_sample]
    rw [e1, e2] at hj
    exact hj
  have ha : accumulate m { count_sample blk t with d_cur_sample := 0 } inp =
      accumulate m { count_sample blk t with d_cur_sample := 0 } inp' := by
    simp only [accumulate, hc]
  simp only [work_iter, new_symbol, ha]

/-- The loop of `work` writes one output in each iteration. -/
theorem work_loop_length (m : gr_math K) (input0 : Int → gr_complex K) (input1 : Int → Int)
    (n : Nat) : ∀ (iptr trigger : Int) (blk : dab_ofdm_ffe_all_in_one K),
    (work_loop m input0 input1 n iptr trigger blk).2.1.length = n := by
  induction n with
  | zero => intro _ _ _; rfl
  | succ k ih => intro iptr trigger blk; simp [work_loop, ih]

/-- The loop of `work` run longer writes the same outputs first. -/
theorem work_loop_take (m : gr_math K) (input0 : Int → gr_complex K) (input1 : Int → Int)
    (iptr trigger : Int) (blk : dab_ofdm_ffe_all_in_one K) (k d : Nat) :
    (work_loop m input0 input1 (k + d) iptr trigger blk).2.1.take k =
      (work_loop m input0 input1 k iptr trigger blk).2.1 := by
  induction d with
  | zero =>
    rw [Nat.add_zero]
    exact List.take_of_length_le (le_of_eq (work_loop_length m input0 input1 k iptr trigger blk))
  | succ e ih =>
    rw [← Nat.add_assoc, work_loop_snoc]
    simp only
    rw [List.take_append_of_le_length
      (by rw [work_loop_length]; exact Nat.le_add_right k e)]
    exact ih

/-- The loop of `work` gives the same result for two pairs of input streams that agree, in
each of its iterations, on the trigger byte and on the samples the iteration reads. -/
theorem work_loop_congr (m : gr_math K) (input0 input0' : Int → gr_complex K)
    (input1 input1' : Int → Int) (n : Nat) :
    ∀ (iptr trigger : Int) (blk : dab_ofdm_ffe_all_in_one K),
      (∀ i : Nat, i < n → ∀ j ∈ calc_ffe_reads blk.d_fft_length (cp_length blk).toNat,
        input0 (iptr + (i : Int) + j) = input0' (iptr + (i : Int) + j)) →
      (∀ i : Nat, i < n → input1 (trigger + (i : Int)) = input1' (trigger + (i : Int))) →
      work_loop m input0 input1 n iptr trigger blk =
        work_loop m input0' input1' n iptr trigger blk := by
  induction n with
  | zero => intro _ _ _ _ _; rfl
  | succ k ih =>
    intro iptr trigger blk hs ht
    have h0 : work_iter m blk (fun j => input0 (iptr + j)) (input1 trigger) =
        work_iter m blk (fun j => input0' (iptr + j)) (input1' trigger) := by
      have e := ht 0 (Nat.succ_pos k)
      simp only [Nat.cast_zero, add_zero] at e
      rw [e]
      apply work_iter_congr
      intro j hj
      have := hs 0 (Nat.succ_pos k) j hj
      simpa using this
    obtain ⟨-, w2, w3⟩ := work_iter_lengths m blk (fun j => input0' (iptr + j)) (input1' trigger)
    simp only [work_loop, h0]
    rw [ih (iptr + 1) (trigger + 1) _
      (fun i hi j hj => by
        rw [w2, w3] at hj
        have := hs (i + 1) (Nat.succ_lt_succ hi) j hj
        have e : iptr + ((i + 1 : Nat) : Int) + j = iptr + 1 + (i : Int) + j := by
          push_cast; ring
        rw [e] at this
        exact this)
      (fun i hi => by
        have := ht (i + 1) (Nat.succ_lt_succ hi)
        have e : trigger + ((i + 1 : Nat) : Int) = trigger + 1 + (i : Int) := by
          push_cast; ring
        rw [e] at this
        exact this)]

/-- An iteration of `work` keeps `d_cur_sample` below `d_symbol_length`. -/
theorem work_iter_cur_sample (m : gr_math K) (blk : dab_ofdm_ffe_all_in_one K)
    (inp : Int → gr_complex K) (t : Int) (hL : 1 ≤ blk.d_symbol_length)
    (h : blk.d_cur_sample < blk.d_symbol_length) :
    (work_iter m blk inp t).1.d_cur_sample < blk.d_symbol_length := by
  obtain ⟨-, -, c3, -, -⟩ := work_iter_counters m blk inp t
  rw [c3]
  split
  · exact hL
  · rename_i hne
    have hle : (count_sample blk t).d_cur_sample ≤ blk.d_symbol_length := by
      simp only [count_sample, frame_start, uint_incr]
      split
      · exact le_trans (Nat.mod_le _ _) hL
      · exact le_trans (Nat.mod_le _ _) h
    exact lt_of_le_of_ne hle hne

/-- The loop of `work` keeps `d_cur_sample` below `d_symbol_length`. -/
theorem work_loop_cur_sample (m : gr_math K) (input0 : Int → gr_complex K)
    (input1 : Int → Int) (iptr trigger : Int) (blk : dab_ofdm_ffe_all_in_one K)
    (hL : 1 ≤ blk.d_symbol_length) (h : blk.d_cur_sample < blk.d_symbol_length) (n : Nat) :
    (work_loop m input0 input1 n iptr trigger blk).1.d_symbol_length = blk.d_symbol_length ∧
      (work_loop m input0 input1 n iptr trigger blk).1.d_cur_sample < blk.d_symbol_length := by
  induction n with
  | zero => exact ⟨rfl, h⟩
  | succ k ih =>
    rw [work_loop_snoc]
    obtain ⟨w1, -, -⟩ := work_iter_lengths m (work_loop m input0 input1 k iptr trigger blk).1
      (fun j => input0 (iptr + (k : Int) + j)) (input1 (trigger + (k : Int)))
    have := work_iter_cur_sample m (work_loop m input0 input1 k iptr trigger blk).1
      (fun j => input0 (iptr + (k : Int) + j)) (input1 (trigger + (k : Int)))
      (by rw [ih.1]; exact hL) (by rw [ih.1]; exact ih.2)
    rw [ih.1] at this w1
    exact ⟨w1, this⟩

/-- An iteration of `work` keeps `d_estimated_error_per_sample` equal to
`d_estimated_error / d_fft_length`. -/
theorem work_iter_scaling (m : gr_math K) (blk : dab_ofdm_ffe_all_in_one K)
    (inp : Int → gr_complex K) (t : Int)
    (h : blk.d_estimated_error_per_sample = blk.d_estimated_error / (blk.d_fft_length : K)) :
    (work_iter m blk inp t).1.d_estimated_error_per_sample =
      (work_iter m blk inp t).1.d_estimated_error / (blk.d_fft_length : K) := by
  have ha : ∀ b : dab_ofdm_ffe_all_in_one K,
      (accumulate m b inp).d_fft_length = b.d_fft_length := by
    intro b; unfold accumulate; split <;> rfl
  simp only [work_iter]
  split
  · simp only [new_symbol, update_estimated_error]
    split
    · simp [count_sample, ha]
    · simp [count_sample, h]
  · simp [count_sample, h]

theorem uint_sub_one_lt (n : Nat) (h : 1 ≤ n) : uint_sub n 1 < n := by
  unfold uint_sub UINT_RANGE
  omega

/-- Outside a window, with the trigger clear, an iteration of `work` only counts: the result
is written out here without `gr_math` and without the samples. -/
theorem work_iter_idle (m : gr_math K) (blk : dab_ofdm_ffe_all_in_one K)
    (inp : Int → gr_complex K) (t : Int) (hN : 1 ≤ blk.d_num_symbols)
    (hidle : blk.d_num_symbols ≤ blk.d_cur_symbol) (ht : t ≠ 1) :
    work_iter m blk inp t =
      (if uint_incr blk.d_cur_sample = blk.d_symbol_length then
          { blk with d_cur_sample := 0, d_cur_symbol := uint_incr blk.d_cur_symbol }
        else { blk with d_cur_sample := uint_incr blk.d_cur_sample },
        blk.d_estimated_error_per_sample, []) := by
  have hcs : count_sample blk t = { blk with d_cur_sample := uint_incr blk.d_cur_sample } := by
    simp only [count_sample, frame_start_clear _ t ht]
  by_cases hb : uint_incr blk.d_cur_sample = blk.d_symbol_length
  · have hb' : (count_sample blk t).d_cur_sample = blk.d_symbol_length := by rw [hcs]; exact hb
    have hl : (count_sample blk t).d_cur_symbol ≠
        uint_sub (count_sample blk t).d_num_symbols 1 := by
      rw [hcs]
      show blk.d_cur_symbol ≠ uint_sub blk.d_num_symbols 1
      have := uint_sub_one_lt blk.d_num_symbols hN
      omega
    have hnot : ¬ (blk.d_cur_symbol < blk.d_num_symbols) := by omega
    rw [work_iter_boundary m blk inp t hb', new_symbol_not_last m _ inp hl, hcs, if_pos hb]
    simp only [accumulate, if_neg hnot]
  · have hb' : (count_sample blk t).d_cur_sample ≠ blk.d_symbol_length := by rw [hcs]; exact hb
    rw [work_iter_inside m blk inp t hb', hcs, if_neg hb]

/-- From the state the constructor leaves, as long as no trigger comes and the symbol
counter has not wrapped, the loop of `work` only counts and writes 0. -/
theorem idle_run (m : gr_math K) (symbol_length fft_length num_symbols : Nat) (alpha : K)
    (sample_rate : Nat) (input0 : Int → gr_complex K) (input1 : Int → Int) (iptr trigger : Int)
    (hL : 1 ≤ symbol_length) (hLR : symbol_length < UINT_RANGE) (hN : 1 ≤ num_symbols)
    (hNR : num_symbols < UINT_RANGE) (n : Nat)
    (hclear : ∀ i : Nat, i < n → input1 (trigger + (i : Int)) ≠ 1) :
    n ≤ (UINT_RANGE - num_symbols) * symbol_length →
      (work_loop m input0 input1 n iptr trigger
          (dab_make_ofdm_ffe_all_in_one symbol_length fft_length num_symbols alpha
            sample_rate)).2.1 = List.replicate n 0 ∧
        (work_loop m input0 input1 n iptr trigger
          (dab_make_ofdm_ffe_all_in_one symbol_length fft_length num_symbols alpha
            sample_rate)).2.2 = List.replicate n [] ∧
        (n < (UINT_RANGE - num_symbols) * symbol_length →
          (work_loop m input0 input1 n iptr trigger
            (dab_make_ofdm_ffe_all_in_one symbol_length fft_length num_symbols alpha
              sample_rate)).1 =
            { dab_make_ofdm_ffe_all_in_one symbol_length fft_length num_symbols alpha
                sample_rate with
              d_cur_sample := n % symbol_length
              d_cur_symbol := num_symbols + n / symbol_length }) := by
  induction n with
  | zero =>
    intro _
    refine ⟨rfl, rfl, fun _ => ?_⟩
    simp [work_loop, dab_make_ofdm_ffe_all_in_one]
  | succ k ih =>
    intro hk
    have hklt : k < (UINT_RANGE - num_symbols) * symbol_length := by omega
    obtain ⟨i1, i2, i3⟩ := ih (fun i hi => hclear i (by omega)) (by omega)
    have hst := i3 hklt
    have hq : k / symbol_length < UINT_RANGE - num_symbols :=
      (Nat.div_lt_iff_lt_mul hL).mpr hklt
    have hm := Nat.mod_lt k hL
    have hsample : uint_incr (k % symbol_length) = k % symbol_length + 1 := by
      unfold uint_incr UINT_RANGE at *
      generalize k % symbol_length = r at *
      omega
    have hsymbol : uint_incr (num_symbols + k / symbol_length) =
        num_symbols + k / symbol_length + 1 ∨
        ¬ (k + 1 < (UINT_RANGE - num_symbols) * symbol_length ∧
          (k + 1) % symbol_length = 0) := by
      by_cases hc : k + 1 < (UINT_RANGE - num_symbols) * symbol_length ∧
          (k + 1) % symbol_length = 0
      · left
        have h1 : (k + 1) / symbol_length < UINT_RANGE - num_symbols :=
          (Nat.div_lt_iff_lt_mul hL).mpr hc.1
        rcases succ_div_mod symbol_length k hL with ⟨e1, -, -⟩ | ⟨-, e2, -⟩
        · exact absurd hc.2 e1
        · rw [e2] at h1
          unfold uint_incr UINT_RANGE at *
          generalize k / symbol_length = q at *
          omega
      · right; exact hc
    have hiter := work_iter_idle m
      (work_loop m input0 input1 k iptr trigger
        (dab_make_ofdm_ffe_all_in_one symbol_length fft_length num_symbols alpha sample_rate)).1
      (fun j => input0 (iptr + (k : Int) + j)) (input1 (trigger + (k : Int)))
      (by rw [hst]; exact hN) (by rw [hst]; exact Nat.le_add_right _ _)
      (hclear k (Nat.lt_succ_self k))
    rw [work_loop_snoc, hiter, i1, i2, hst]
    refine ⟨?_, ?_, ?_⟩
    · simp [List.replicate_succ', dab_make_ofdm_ffe_all_in_one]
    · simp [List.replicate_succ']
    · intro hlt
      simp only [dab_make_ofdm_ffe_all_in_one, hsample]
      rcases succ_div_mod symbol_length k hL with ⟨e1, e2, e3⟩ | ⟨e1, e2, e3⟩
      · have hne : ¬ (k % symbol_length + 1 = symbol_length) := by
          have := Nat.mod_lt (k + 1) hL
          omega
        rw [if_neg hne, e2, e3]
      · rcases hsymbol with hs | hs
        · rw [if_pos e3, hs, e2, e1, Nat.add_assoc]
        · exact absurd ⟨hlt, e1⟩ hs

/-- The unwrap of lines 99-104 is the unwrap of the specification. -/
theorem spec_unwrapped_estimate_eq (M_PI : K) (k : Nat) (s e : K) :
    spec_unwrapped_estimate M_PI k s e = unwrap_new_estimate M_PI k s e := by
  unfold spec_unwrapped_estimate unwrap_new_estimate
  by_cases hk : 0 < k
  · have hk' : (0 : K) < (k : K) := by exact_mod_cast hk
    have h1 : s / (k : K) < 0 ↔ s < 0 := by
      rw [div_lt_iff₀ hk', zero_mul]
    have h2 : s / (k : K) > 0 ↔ s > 0 := by
      rw [gt_iff_lt, lt_div_iff₀ hk', zero_mul]
    simp only [if_pos hk, h1, h2]
  · simp only [if_neg hk]

/-- The loop of `work` leaves the lengths and `d_num_symbols` as they are. -/
theorem work_loop_lengths (m : gr_math K) (input0 : Int → gr_complex K) (input1 : Int → Int)
    (iptr trigger : Int) (blk : dab_ofdm_ffe_all_in_one K) (n : Nat) :
    (work_loop m input0 input1 n iptr trigger blk).1.d_symbol_length = blk.d_symbol_length ∧
      (work_loop m input0 input1 n iptr trigger blk).1.d_fft_length = blk.d_fft_length ∧
      (work_loop m input0 input1 n iptr trigger blk).1.d_num_symbols = blk.d_num_symbols := by
  induction n with
  | zero => exact ⟨rfl, rfl, rfl⟩
  | succ k ih =>
    rw [work_loop_snoc]
    obtain ⟨w1, w2, -⟩ := work_iter_lengths m (work_loop m input0 input1 k iptr trigger blk).1
      (fun j => input0 (iptr + (k : Int) + j)) (input1 (trigger + (k : Int)))
    obtain ⟨-, c2, -⟩ := work_iter_counters m (work_loop m input0 input1 k iptr trigger blk).1
      (fun j => input0 (iptr + (k : Int) + j)) (input1 (trigger + (k : Int)))
    exact ⟨w1.trans ih.1, w2.trans ih.2.1, c2.trans ih.2.2⟩

/-- The value of `d_ffs_error_sum` after an iteration of `work`. -/
theorem work_iter_sum (m : gr_math K) (blk : dab_ofdm_ffe_all_in_one K)
    (inp : Int → gr_complex K) (t : Int) :
    ((count_sample blk t).d_cur_sample ≠ blk.d_symbol_length →
        (work_iter m blk inp t).1.d_ffs_error_sum = (frame_start blk t).d_ffs_error_sum) ∧
      ((count_sample blk t).d_cur_sample = blk.d_symbol_length →
        (frame_start blk t).d_cur_symbol < blk.d_num_symbols →
        (work_iter m blk inp t).1.d_ffs_error_sum =
          if (frame_start blk t).d_cur_symbol = uint_sub blk.d_num_symbols 1 then
            ((frame_start blk t).d_ffs_error_sum +
              unwrap_new_estimate m.M_PI (frame_start blk t).d_cur_symbol
                (frame_start blk t).d_ffs_error_sum (calc_ffe_estimate m blk inp)) /
              (blk.d_num_symbols : K)
          else
            (frame_start blk t).d_ffs_error_sum +
              unwrap_new_estimate m.M_PI (frame_start blk t).d_cur_symbol
                (frame_start blk t).d_ffs_error_sum (calc_ffe_estimate m blk inp)) := by
  constructor
  · intro hb
    rw [work_iter_inside m blk inp t hb]
    simp [count_sample]
  · intro hb hN
    have hN' : (frame_start blk t).d_cur_symbol < (frame_start blk t).d_num_symbols := by
      simpa using hN
    have hcc : calc_ffe_estimate m (count_sample blk t) inp = calc_ffe_estimate m blk inp :=
      calc_ffe_estimate_congr m (count_sample blk t) blk inp (by simp [count_sample])
        (by simp [count_sample])
    rw [work_iter_boundary m blk inp t hb]
    by_cases hl : (frame_start blk t).d_cur_symbol = uint_sub blk.d_num_symbols 1
    · rw [if_pos hl, new_symbol_last m (count_sample blk t) inp
        (by simpa [count_sample] using hl) (by simpa [count_sample] using hN) _ _ rfl rfl]
      simp only [hcc]
      simp [count_sample]
    · rw [if_neg hl, new_symbol_not_last m (count_sample blk t) inp
        (by simpa [count_sample] using hl)]
      simp only [accumulate, count_sample, hN', if_true]
      rw [calc_ffe_estimate_congr m _ blk inp (by simp) (by simp)]

/-- The accumulator of a stream with the trigger set on the first iteration and never
again, up to the symbol after the window: inside the window it is the running sum of the
specification, and from the completion of the window on it is that sum divided by
`d_num_symbols`. -/
theorem sum_run (m : gr_math K) (blk : dab_ofdm_ffe_all_in_one K)
    (input0 : Int → gr_complex K) (input1 : Int → Int)
    (hL : 1 ≤ blk.d_symbol_length) (hLR : blk.d_symbol_length < UINT_RANGE)
    (hN : 1 ≤ blk.d_num_symbols) (hNR : blk.d_num_symbols < UINT_RANGE)
    (htrig : input1 blk.d_symbol_length = 1)
    (hclear : ∀ i : Nat, 1 ≤ i → input1 ((blk.d_symbol_length : Int) + (i : Int)) ≠ 1)
    (n : Nat) :
    1 ≤ n → n < (blk.d_num_symbols + 1) * blk.d_symbol_length →
      (work_loop m input0 input1 n blk.d_symbol_length blk.d_symbol_length
          blk).1.d_ffs_error_sum =
        if n / blk.d_symbol_length < blk.d_num_symbols then
          spec_running_sum m.M_PI (symbol_estimate m blk input0) (n / blk.d_symbol_length)
        else
          spec_running_sum m.M_PI (symbol_estimate m blk input0) blk.d_num_symbols /
            (blk.d_num_symbols : K) := by
  induction n with
  | zero => intro h; exact absurd h (by decide)
  | succ k ih =>
    intro _ hk
    have hbound : (blk.d_num_symbols + 1) * blk.d_symbol_length ≤
        UINT_RANGE * blk.d_symbol_length :=
      Nat.mul_le_mul_right _ (by omega)
    have hklt : k < UINT_RANGE * blk.d_symbol_length := by omega
    obtain ⟨l1, l2, l3⟩ := work_loop_lengths m input0 input1 blk.d_symbol_length
      blk.d_symbol_length blk k
    -- the block before iteration `k`, after the trigger has been handled
    have hpre : (count_sample (work_loop m input0 input1 k blk.d_symbol_length
          blk.d_symbol_length blk).1
          (input1 ((blk.d_symbol_length : Int) + (k : Int)))).d_cur_sample =
          k % blk.d_symbol_length + 1 ∧
        (frame_start (work_loop m input0 input1 k blk.d_symbol_length
          blk.d_symbol_length blk).1
          (input1 ((blk.d_symbol_length : Int) + (k : Int)))).d_cur_symbol =
          k / blk.d_symbol_length ∧
        (frame_start (work_loop m input0 input1 k blk.d_symbol_length
          blk.d_symbol_length blk).1
          (input1 ((blk.d_symbol_length : Int) + (k : Int)))).d_ffs_error_sum =
          if k / blk.d_symbol_length < blk.d_num_symbols then
            spec_running_sum m.M_PI (symbol_estimate m blk input0) (k / blk.d_symbol_length)
          else
            spec_running_sum m.M_PI (symbol_estimate m blk input0) blk.d_num_symbols /
              (blk.d_num_symbols : K) := by
      rcases Nat.eq_zero_or_pos k with h0 | hpos
      · subst h0
        have hN0 : 0 < blk.d_num_symbols := hN
        simp [work_loop, htrig, count_sample, frame_start, uint_incr, UINT_RANGE, hN0,
          spec_running_sum]
      · obtain ⟨-, -, r3, -, -⟩ := counters_run m blk input0 input1 blk.d_symbol_length
          blk.d_symbol_length hL hLR htrig hclear k hklt.le
        obtain ⟨s1, s2⟩ := r3 hpos hklt
        have hm := Nat.mod_lt k hL
        have hinc : uint_incr (k % blk.d_symbol_length) = k % blk.d_symbol_length + 1 := by
          unfold uint_incr UINT_RANGE at *
          generalize k % blk.d_symbol_length = r at *
          omega
        rw [frame_start_clear _ _ (hclear k hpos)]
        refine ⟨?_, s2, ih hpos (by omega)⟩
        simp only [count_sample, frame_start_clear _ _ (hclear k hpos), s1, hinc]
    obtain ⟨p1, p2, p3⟩ := hpre
    obtain ⟨q1, q2⟩ := work_iter_sum m
      (work_loop m input0 input1 k blk.d_symbol_length blk.d_symbol_length blk).1
      (fun j => input0 ((blk.d_symbol_length : Int) + (k : Int) + j))
      (input1 ((blk.d_symbol_length : Int) + (k : Int)))
    rw [l1, p1] at q1 q2
    rw [p2, p3, l3] at q2
    rw [p3] at q1
    rw [work_loop_snoc]
    rcases succ_div_mod blk.d_symbol_length k hL with ⟨e1, e2, e3⟩ | ⟨e1, e2, e3⟩
    · have hne : k % blk.d_symbol_length + 1 ≠ blk.d_symbol_length := by
        have := Nat.mod_lt (k + 1) hL
        omega
      rw [q1 hne, e2]
    · have hdiv : (k + 1) / blk.d_symbol_length < blk.d_num_symbols + 1 :=
        (Nat.div_lt_iff_lt_mul hL).mpr hk
      have hq : k / blk.d_symbol_length < blk.d_num_symbols := by
        rw [e2] at hdiv; exact Nat.lt_of_succ_lt_succ hdiv
      have hidx : (k / blk.d_symbol_length + 1) * blk.d_symbol_length - 1 = k := by
        have h3 := Nat.div_add_mod (k + 1) blk.d_symbol_length
        rw [e1, e2, Nat.add_zero, Nat.mul_comm] at h3
        rw [h3]
        rfl
      have hest : calc_ffe_estimate m
          (work_loop m input0 input1 k blk.d_symbol_length blk.d_symbol_length blk).1
          (fun j => input0 ((blk.d_symbol_length : Int) + (k : Int) + j)) =
          symbol_estimate m blk input0 (k / blk.d_symbol_length) := by
        rw [calc_ffe_estimate_congr m
          (work_loop m input0 input1 k blk.d_symbol_length blk.d_symbol_length blk).1 blk _
          l1 l2]
        simp only [symbol_estimate, hidx]
      rw [q2 e3 hq, if_pos hq, hest, ← spec_unwrapped_estimate_eq, e2, uint_sub_one _ hN hNR]
      by_cases hlast : k / blk.d_symbol_length = blk.d_num_symbols - 1
      · have hnl : ¬ (k / blk.d_symbol_length + 1 < blk.d_num_symbols) := by omega
        have hNe : k / blk.d_symbol_length + 1 = blk.d_num_symbols := by omega
        rw [if_pos hlast, if_neg hnl, ← hNe]
        rfl
      · have hlt : k / blk.d_symbol_length + 1 < blk.d_num_symbols := by omega
        rw [if_neg hlast, if_pos hlt]
        rfl

end lemmas

section window

variable {K : Type} [LinearOrderedField K]

/-- C1. The window scenario. From the state the constructor leaves, with the trigger set on
the first iteration only and the estimate of every symbol equal to `theta`, `work` writes 0
in each of the first `num_symbols * symbol_length - 1` iterations and `theta / fft_length`
in iteration `num_symbols * symbol_length`, in which `d_estimated_error` becomes `theta`;
until then `d_estimated_error` is 0. -/
theorem window_scenario (m : gr_math K) (symbol_length fft_length num_symbols : Nat) (alpha : K)
    (sample_rate : Nat) (theta : K) (input0 : Int → gr_complex K) (input1 : Int → Int)
    (hL : 1 ≤ symbol_length) (hLR : symbol_length < UINT_RANGE)
    (hN : 1 ≤ num_symbols) (hNR : num_symbols < UINT_RANGE) (_hfft : 1 ≤ fft_length)
    (htrig : input1 symbol_length = 1)
    (hclear : ∀ i : Nat, 1 ≤ i → i < num_symbols * symbol_length →
      input1 ((symbol_length : Int) + (i : Int)) ≠ 1)
    (hest : ∀ j : Nat, j < num_symbols * symbol_length → (j + 1) % symbol_length = 0 →
      calc_ffe_estimate m
          (dab_make_ofdm_ffe_all_in_one symbol_length fft_length num_symbols alpha sample_rate)
          (fun i => input0 ((symbol_length : Int) + (j : Int) + i)) = theta) :
    (work m (dab_make_ofdm_ffe_all_in_one symbol_length fft_length num_symbols alpha sample_rate)
          (num_symbols * symbol_length) input0 input1).2.1 =
        List.replicate (num_symbols * symbol_length - 1) 0 ++ [theta / (fft_length : K)] ∧
      (work m (dab_make_ofdm_ffe_all_in_one symbol_length fft_length num_symbols alpha sample_rate)
          (num_symbols * symbol_length) input0 input1).1.d_estimated_error = theta ∧
      (work m (dab_make_ofdm_ffe_all_in_one symbol_length fft_length num_symbols alpha sample_rate)
          (num_symbols * symbol_length) input0 input1).1.d_estimated_error_per_sample =
        theta / (fft_length : K) ∧
      (work m (dab_make_ofdm_ffe_all_in_one symbol_length fft_length num_symbols alpha sample_rate)
          (num_symbols * symbol_length - 1) input0 input1).1.d_estimated_error = 0 := by
  have hpos : 0 < num_symbols * symbol_length := Nat.mul_pos hN hL
  obtain ⟨k, hk⟩ : ∃ k, num_symbols * symbol_length = k + 1 := ⟨_, (Nat.succ_pred_eq_of_pos hpos).symm⟩
  have hrun := scenario_run m
    (dab_make_ofdm_ffe_all_in_one symbol_length fft_length num_symbols alpha sample_rate) theta
    input0 input1 symbol_length symbol_length hL hLR hNR rfl rfl htrig hclear hest k
    (by show k < num_symbols * symbol_length; omega)
  obtain ⟨r1, -, r3⟩ := hrun
  have hlast : (work_iter m (work_loop m input0 input1 k symbol_length symbol_length
        (dab_make_ofdm_ffe_all_in_one symbol_length fft_length num_symbols alpha sample_rate)).1
        (fun j => input0 ((symbol_length : Int) + (k : Int) + j))
        (input1 ((symbol_length : Int) + (k : Int)))).1.d_estimated_error = theta ∧
      (work_iter m (work_loop m input0 input1 k symbol_length symbol_length
        (dab_make_ofdm_ffe_all_in_one symbol_length fft_length num_symbols alpha sample_rate)).1
        (fun j => input0 ((symbol_length : Int) + (k : Int) + j))
        (input1 ((symbol_length : Int) + (k : Int)))).1.d_estimated_error_per_sample =
          theta / (fft_length : K) ∧
      (work_iter m (work_loop m input0 input1 k symbol_length symbol_length
        (dab_make_ofdm_ffe_all_in_one symbol_length fft_length num_symbols alpha sample_rate)).1
        (fun j => input0 ((symbol_length : Int) + (k : Int) + j))
        (input1 ((symbol_length : Int) + (k : Int)))).2.1 = theta / (fft_length : K) := by
    rcases Nat.eq_zero_or_pos k with h0 | hp
    · subst h0
      simp only [work_loop, Nat.cast_zero, add_zero, htrig]
      rw [scenario_first m _ theta _ rfl rfl]
      exact scenario_last m _ theta _ 0 0 hL hLR hNR (by simpa using hk.symm) (by decide)
        (by simpa using hest 0 (by omega) (by
          have : symbol_length = 1 := by
            rcases Nat.eq_zero_or_pos (num_symbols - 1) with h | h
            · have : num_symbols = 1 := by omega
              rw [this] at hk; omega
            · exfalso
              have : 2 ≤ num_symbols := by omega
              have := Nat.mul_le_mul this hL
              omega
          rw [this]))
    · rw [r3 hp]
      exact scenario_last m _ theta _ _ k hL hLR hNR hk.symm (hclear k hp (by omega))
        (hest k (by omega) (by rw [← hk]; exact Nat.mul_mod_left _ _))
  refine ⟨?_, ?_, ?_, ?_⟩
  · simp only [work, dab_make_ofdm_ffe_all_in_one]
    rw [hk, work_loop_snoc]
    simp only [dab_make_ofdm_ffe_all_in_one] at r1 hlast
    simp only [Nat.add_sub_cancel, r1, hlast.2.2]
  · simp only [work, dab_make_ofdm_ffe_all_in_one]
    rw [hk, work_loop_snoc]
    simp only [dab_make_ofdm_ffe_all_in_one] at hlast
    exact hlast.1
  · simp only [work, dab_make_ofdm_ffe_all_in_one]
    rw [hk, work_loop_snoc]
    simp only [dab_make_ofdm_ffe_all_in_one] at hlast
    exact hlast.2.1
  · rw [hk, Nat.add_sub_cancel]
    rcases Nat.eq_zero_or_pos k with h0 | hp
    · subst h0
      simp [work, work_loop, dab_make_ofdm_ffe_all_in_one]
    · simp only [work]
      have := r3 hp
      simp only [dab_make_ofdm_ffe_all_in_one] at this ⊢
      rw [this]
      rfl

end window

section single_iteration

variable {K : Type} [LinearOrderedField K]

/-- C2. An iteration of `work` with the trigger set is an iteration with the trigger clear
from the block whose `d_cur_symbol`, `d_cur_sample` and `d_ffs_error_sum` are 0 and whose
other members, `d_estimated_error` and `d_estimated_error_per_sample` among them, are as
before; so its result is the same whatever the three members were. -/
theorem trigger_reset (m : gr_math K) (blk : dab_ofdm_ffe_all_in_one K)
    (inp : Int → gr_complex K) (trigger : Int) (h : trigger ≠ 1) :
    work_iter m blk inp 1 =
        work_iter m { blk with d_cur_symbol := 0, d_cur_sample := 0, d_ffs_error_sum := 0 }
          inp trigger ∧
      ∀ (cur_symbol cur_sample : Nat) (ffs_error_sum : K),
        work_iter m
            { blk with
              d_cur_symbol := cur_symbol, d_cur_sample := cur_sample,
              d_ffs_error_sum := ffs_error_sum } inp 1 =
          work_iter m blk inp 1 := by
  constructor
  · simp [work_iter, count_sample, frame_start, h]
  · intro cs cp es
    simp [work_iter, count_sample, frame_start]

/-- C3. When `d_symbol_length` is at least 2, an iteration of `work` with the trigger set
leaves `d_estimated_error` and `d_estimated_error_per_sample` as they were and writes the
old `d_estimated_error_per_sample` to the output. -/
theorem published_estimate_survives_trigger (m : gr_math K) (blk : dab_ofdm_ffe_all_in_one K)
    (inp : Int → gr_complex K) (h : 2 ≤ blk.d_symbol_length) :
    (work_iter m blk inp 1).1.d_estimated_error = blk.d_estimated_error ∧
      (work_iter m blk inp 1).1.d_estimated_error_per_sample =
        blk.d_estimated_error_per_sample ∧
      (work_iter m blk inp 1).2.1 = blk.d_estimated_error_per_sample := by
  have hc : (count_sample blk 1).d_cur_sample ≠ blk.d_symbol_length := by
    simp [count_sample, frame_start, uint_incr, UINT_RANGE]
    omega
  rw [work_iter_inside m blk inp 1 hc]
  simp [count_sample]

/-- C4. If an iteration of `work` changes `d_estimated_error_per_sample` or
`d_estimated_error`, then `d_cur_sample`, after the trigger was handled and the counter
incremented, was `d_symbol_length`, and `d_cur_symbol`, after the trigger was handled, was
`d_num_symbols-1` (the `unsigned int` difference, which is `d_num_symbols - 1` for a
positive `d_num_symbols`); in every other iteration both members keep their values. -/
theorem published_changes_only_on_window_completion (m : gr_math K)
    (blk : dab_ofdm_ffe_all_in_one K) (inp : Int → gr_complex K) (trigger : Int) :
    ((work_iter m blk inp trigger).1.d_estimated_error_per_sample ≠
          blk.d_estimated_error_per_sample ∨
        (work_iter m blk inp trigger).1.d_estimated_error ≠ blk.d_estimated_error →
      (count_sample blk trigger).d_cur_sample = blk.d_symbol_length ∧
        (frame_start blk trigger).d_cur_symbol = uint_sub blk.d_num_symbols 1 ∧
        (1 ≤ blk.d_num_symbols → blk.d_num_symbols < UINT_RANGE →
          (frame_start blk trigger).d_cur_symbol = blk.d_num_symbols - 1)) ∧
      (¬ ((count_sample blk trigger).d_cur_sample = blk.d_symbol_length ∧
          (frame_start blk trigger).d_cur_symbol = uint_sub blk.d_num_symbols 1) →
        (work_iter m blk inp trigger).1.d_estimated_error_per_sample =
            blk.d_estimated_error_per_sample ∧
          (work_iter m blk inp trigger).1.d_estimated_error = blk.d_estimated_error) := by
  have key : ¬ ((count_sample blk trigger).d_cur_sample = blk.d_symbol_length ∧
          (frame_start blk trigger).d_cur_symbol = uint_sub blk.d_num_symbols 1) →
        (work_iter m blk inp trigger).1.d_estimated_error_per_sample =
            blk.d_estimated_error_per_sample ∧
          (work_iter m blk inp trigger).1.d_estimated_error = blk.d_estimated_error := by
    intro hn
    by_cases hb : (count_sample blk trigger).d_cur_sample = blk.d_symbol_length
    · have hl : (count_sample blk trigger).d_cur_symbol ≠
          uint_sub (count_sample blk trigger).d_num_symbols 1 := by
        intro h
        exact hn ⟨hb, by simpa [count_sample] using h⟩
      rw [work_iter_boundary m blk inp trigger hb, new_symbol_not_last m _ inp hl]
      simp [accumulate_estimated_error, accumulate_per_sample, count_sample]
    · rw [work_iter_inside m blk inp trigger hb]
      simp [count_sample]
  refine ⟨?_, key⟩
  intro hch
  by_contra hn
  have hcond : (count_sample blk trigger).d_cur_sample = blk.d_symbol_length ∧
      (frame_start blk trigger).d_cur_symbol = uint_sub blk.d_num_symbols 1 := by
    by_contra hc
    obtain ⟨h1, h2⟩ := key hc
    rcases hch with h | h
    · exact h h1
    · exact h h2
  apply hn
  refine ⟨hcond.1, hcond.2, ?_⟩
  intro h1 h2
  rw [hcond.2, uint_sub_one _ h1 h2]

/-- C6. Fast acquisition. At a symbol boundary that completes the window
(`d_cur_symbol = d_num_symbols - 1`) and is reached with `d_estimated_error` exactly 0, the
new `d_estimated_error` is the window average, the sum with the unwrapped estimate of this
symbol added divided by `d_num_symbols`, for every `d_alpha`; no switch is detected (the only
line printed is the estimate), and `d_estimated_error_per_sample`, which is also the output,
is the window average over `d_fft_length`. The block is arbitrary otherwise, so it need not
be the first window. -/
theorem fast_acquisition (m : gr_math K) (blk : dab_ofdm_ffe_all_in_one K)
    (inp : Int → gr_complex K) (trigger : Int)
    (hN : 1 ≤ blk.d_num_symbols) (hR : blk.d_num_symbols < UINT_RANGE)
    (hb : (count_sample blk trigger).d_cur_sample = blk.d_symbol_length)
    (hl : (frame_start blk trigger).d_cur_symbol = blk.d_num_symbols - 1)
    (h0 : blk.d_estimated_error = 0) (window_avg : K)
    (havg : window_avg =
      ((frame_start blk trigger).d_ffs_error_sum +
        unwrap_new_estimate m.M_PI (frame_start blk trigger).d_cur_symbol
          (frame_start blk trigger).d_ffs_error_sum (calc_ffe_estimate m blk inp)) /
        (blk.d_num_symbols : K)) :
    (work_iter m blk inp trigger).1.d_estimated_error = window_avg ∧
      (work_iter m blk inp trigger).1.d_estimated_error_per_sample =
        window_avg / (blk.d_fft_length : K) ∧
      (work_iter m blk inp trigger).2.1 = window_avg / (blk.d_fft_length : K) ∧
      (work_iter m blk inp trigger).2.2 =
        [log_line.estimated_error window_avg
          (window_avg / (blk.d_fft_length : K) * (blk.d_sample_rate : K) / (2 * m.M_PI))] := by
  have hsw : switch_detect m.M_PI blk.d_estimated_error window_avg = (0, []) := by
    simp [switch_detect, h0]
  rw [work_iter_last m blk inp trigger hN hR hb hl window_avg window_avg havg
    (by rw [hsw]; simp [adjust])]
  simp [hsw]

/-- C7. Slow tracking. At a symbol boundary that completes the window and is reached with
`d_estimated_error` different from 0, when neither switch condition of lines 120-126 holds,
the new `d_estimated_error` is `d_alpha * window_avg + (1 - d_alpha) * d_estimated_error`,
where `window_avg` is the sum with the estimate of this symbol added divided by
`d_num_symbols`, and `d_estimated_error_per_sample` is the new `d_estimated_error` over
`d_fft_length`. -/
theorem slow_tracking (m : gr_math K) (blk : dab_ofdm_ffe_all_in_one K)
    (inp : Int → gr_complex K) (trigger : Int)
    (hN : 1 ≤ blk.d_num_symbols) (hR : blk.d_num_symbols < UINT_RANGE)
    (hb : (count_sample blk trigger).d_cur_sample = blk.d_symbol_length)
    (hl : (frame_start blk trigger).d_cur_symbol = blk.d_num_symbols - 1)
    (h0 : blk.d_estimated_error ≠ 0) (window_avg : K)
    (havg : window_avg =
      ((frame_start blk trigger).d_ffs_error_sum +
        unwrap_new_estimate m.M_PI (frame_start blk trigger).d_cur_symbol
          (frame_start blk trigger).d_ffs_error_sum (calc_ffe_estimate m blk inp)) /
        (blk.d_num_symbols : K))
    (hnp : ¬ (blk.d_estimated_error < 0 ∧ window_avg > 0 ∧
      window_avg - blk.d_estimated_error > m.M_PI))
    (hpn : ¬ (blk.d_estimated_error > 0 ∧ window_avg < 0 ∧
      blk.d_estimated_error - window_avg > m.M_PI)) :
    (work_iter m blk inp trigger).1.d_estimated_error =
        blk.d_alpha * window_avg + (1 - blk.d_alpha) * blk.d_estimated_error ∧
      (work_iter m blk inp trigger).1.d_estimated_error_per_sample =
        (blk.d_alpha * window_avg + (1 - blk.d_alpha) * blk.d_estimated_error) /
          (blk.d_fft_length : K) ∧
      (work_iter m blk inp trigger).2.1 =
        (blk.d_alpha * window_avg + (1 - blk.d_alpha) * blk.d_estimated_error) /
          (blk.d_fft_length : K) := by
  have hsw : switch_detect m.M_PI blk.d_estimated_error window_avg =
      (blk.d_estimated_error, []) := by
    simp only [switch_detect, if_neg hnp, if_neg hpn]
  rw [work_iter_last m blk inp trigger hN hR hb hl window_avg
    (blk.d_alpha * window_avg + (1 - blk.d_alpha) * blk.d_estimated_error) havg
    (by rw [hsw]; simp [adjust, h0])]
  simp

/-- C8. Unwrap inside the window. At a symbol boundary with `0 < d_cur_symbol < d_num_symbols`
let `e` be the estimate of the symbol and `s` the sum so far. After line 106 the sum is
`s + e + 2 * M_PI` if `s > 0`, `e < 0` and `s / d_cur_symbol - e > M_PI`; it is
`s + e - 2 * M_PI` if `s < 0`, `e > 0` and `e - s / d_cur_symbol > M_PI`; and it is `s + e`
in every other case. The iteration leaves that value in `d_ffs_error_sum`, divided by
`d_num_symbols` when the boundary completes the window. -/
theorem within_window_unwrap (m : gr_math K) (blk : dab_ofdm_ffe_all_in_one K)
    (inp : Int → gr_complex K) (trigger : Int)
    (hb : (count_sample blk trigger).d_cur_sample = blk.d_symbol_length)
    (h0 : 0 < (frame_start blk trigger).d_cur_symbol)
    (hN : (frame_start blk trigger).d_cur_symbol < blk.d_num_symbols) (e s sum : K)
    (he : e = calc_ffe_estimate m blk inp)
    (hs : s = (frame_start blk trigger).d_ffs_error_sum)
    (hsum : sum =
      if s > 0 ∧ e < 0 ∧ s / ((frame_start blk trigger).d_cur_symbol : K) - e > m.M_PI then
        s + e + 2 * m.M_PI
      else if s < 0 ∧ e > 0 ∧ e - s / ((frame_start blk trigger).d_cur_symbol : K) > m.M_PI then
        s + e - 2 * m.M_PI
      else s + e) :
    (accumulate m (frame_start blk trigger) inp).d_ffs_error_sum = sum ∧
      (work_iter m blk inp trigger).1.d_ffs_error_sum =
        if (frame_start blk trigger).d_cur_symbol = uint_sub blk.d_num_symbols 1 then
          sum / (blk.d_num_symbols : K)
        else sum := by
  have hc : calc_ffe_estimate m (frame_start blk trigger) inp = calc_ffe_estimate m blk inp :=
    calc_ffe_estimate_congr m _ _ inp (by simp) (by simp)
  have hacc : (frame_start blk trigger).d_ffs_error_sum +
      unwrap_new_estimate m.M_PI (frame_start blk trigger).d_cur_symbol
        (frame_start blk trigger).d_ffs_error_sum (calc_ffe_estimate m blk inp) = sum := by
    rw [hsum, ← he, ← hs]
    unfold unwrap_new_estimate
    rw [if_pos h0]
    by_cases c1 : s < 0 ∧ e > 0 ∧
        e - s / ((frame_start blk trigger).d_cur_symbol : K) > m.M_PI
    · have c2 : ¬ (s > 0 ∧ e < 0 ∧
          s / ((frame_start blk trigger).d_cur_symbol : K) - e > m.M_PI) := by
        intro h
        exact absurd h.1 (not_lt.mpr c1.1.le)
      rw [if_pos c1, if_neg c2, if_pos c1]
      ring
    · rw [if_neg c1]
      by_cases c2 : s > 0 ∧ e < 0 ∧
          s / ((frame_start blk trigger).d_cur_symbol : K) - e > m.M_PI
      · rw [if_pos c2, if_pos c2]
        ring
      · rw [if_neg c2, if_neg c2, if_neg c1]
  have h1 : (accumulate m (frame_start blk trigger) inp).d_ffs_error_sum = sum := by
    have hN' : (frame_start blk trigger).d_cur_symbol <
        (frame_start blk trigger).d_num_symbols := by simpa using hN
    simp only [accumulate, if_pos hN', hc]
    exact hacc
  refine ⟨h1, ?_⟩
  rw [work_iter_boundary m blk inp trigger hb]
  have hN' : (frame_start blk trigger).d_cur_symbol <
      (frame_start blk trigger).d_num_symbols := by simpa using hN
  by_cases hl : (frame_start blk trigger).d_cur_symbol = uint_sub blk.d_num_symbols 1
  · rw [if_pos hl]
    have hcc : calc_ffe_estimate m (count_sample blk trigger) inp =
        calc_ffe_estimate m blk inp :=
      calc_ffe_estimate_congr m _ _ inp (by simp [count_sample]) (by simp [count_sample])
    rw [new_symbol_last m (count_sample blk trigger) inp (by simpa [count_sample] using hl)
      (by simpa [count_sample] using hN) (sum / (blk.d_num_symbols : K)) _
      (by rw [hcc]; simp only [count_sample, frame_start_num_symbols]; rw [hacc]) rfl]
  · rw [if_neg hl, new_symbol_not_last m _ inp (by simpa [count_sample] using hl)]
    simp only [accumulate, count_sample, hN', if_true]
    rw [calc_ffe_estimate_congr m _ blk inp (by simp) (by simp)]
    exact hacc

/-- C9. Switch between windows. At a symbol boundary that completes the window, with
`window_avg` the sum with the estimate of this symbol added divided by `d_num_symbols`:
if `d_estimated_error < 0`, `window_avg > 0` and `window_avg - d_estimated_error > M_PI`,
then `2 * M_PI` is added to `d_estimated_error` before the adjustment, so that, when
`d_estimated_error + 2 * M_PI` is not 0, the new `d_estimated_error` is
`d_alpha * window_avg + (1 - d_alpha) * (d_estimated_error + 2 * M_PI)`; and if
`d_estimated_error > 0`, `window_avg < 0` and `d_estimated_error - window_avg > M_PI`, then,
when `d_estimated_error - 2 * M_PI` is not 0, the new `d_estimated_error` is
`d_alpha * window_avg + (1 - d_alpha) * (d_estimated_error - 2 * M_PI)`. The first line
printed names the switch. -/
theorem cross_window_unwrap (m : gr_math K) (blk : dab_ofdm_ffe_all_in_one K)
    (inp : Int → gr_complex K) (trigger : Int)
    (hN : 1 ≤ blk.d_num_symbols) (hR : blk.d_num_symbols < UINT_RANGE)
    (hb : (count_sample blk trigger).d_cur_sample = blk.d_symbol_length)
    (hl : (frame_start blk trigger).d_cur_symbol = blk.d_num_symbols - 1) (window_avg : K)
    (havg : window_avg =
      ((frame_start blk trigger).d_ffs_error_sum +
        unwrap_new_estimate m.M_PI (frame_start blk trigger).d_cur_symbol
          (frame_start blk trigger).d_ffs_error_sum (calc_ffe_estimate m blk inp)) /
        (blk.d_num_symbols : K)) :
    (blk.d_estimated_error < 0 ∧ window_avg > 0 ∧
        window_avg - blk.d_estimated_error > m.M_PI →
      blk.d_estimated_error + 2 * m.M_PI ≠ 0 →
      (work_iter m blk inp trigger).1.d_estimated_error =
          blk.d_alpha * window_avg + (1 - blk.d_alpha) * (blk.d_estimated_error + 2 * m.M_PI) ∧
        (work_iter m blk inp trigger).2.2.head? = some log_line.switch_neg_pos) ∧
      (blk.d_estimated_error > 0 ∧ window_avg < 0 ∧
        blk.d_estimated_error - window_avg > m.M_PI →
      blk.d_estimated_error - 2 * m.M_PI ≠ 0 →
      (work_iter m blk inp trigger).1.d_estimated_error =
          blk.d_alpha * window_avg + (1 - blk.d_alpha) * (blk.d_estimated_error - 2 * m.M_PI) ∧
        (work_iter m blk inp trigger).2.2.head? = some log_line.switch_pos_neg) := by
  constructor
  · intro hc hne
    have hsw : switch_detect m.M_PI blk.d_estimated_error window_avg =
        (blk.d_estimated_error + 2 * m.M_PI, [log_line.switch_neg_pos]) := by
      simp only [switch_detect, if_pos hc]
    rw [work_iter_last m blk inp trigger hN hR hb hl window_avg
      (blk.d_alpha * window_avg + (1 - blk.d_alpha) * (blk.d_estimated_error + 2 * m.M_PI))
      havg (by rw [hsw]; simp only [adjust, if_neg hne])]
    simp [hsw]
  · intro hc hne
    have hc1 : ¬ (blk.d_estimated_error < 0 ∧ window_avg > 0 ∧
        window_avg - blk.d_estimated_error > m.M_PI) := by
      intro h
      exact absurd h.1 (not_lt.mpr hc.1.le)
    have hsw : switch_detect m.M_PI blk.d_estimated_error window_avg =
        (blk.d_estimated_error - 2 * m.M_PI, [log_line.switch_pos_neg]) := by
      simp only [switch_detect, if_neg hc1, if_pos hc]
    rw [work_iter_last m blk inp trigger hN hR hb hl window_avg
      (blk.d_alpha * window_avg + (1 - blk.d_alpha) * (blk.d_estimated_error - 2 * m.M_PI))
      havg (by rw [hsw]; simp only [adjust, if_neg hne])]
    simp [hsw]

end single_iteration

section stream

variable {K : Type} [LinearOrderedField K]

/-- C5 (amended). In a stream with the trigger set on the first iteration and never again,
the update of `d_estimated_error` and `d_estimated_error_per_sample` (lines 109-138, the
only lines that print the estimate) is performed in iteration
`d_num_symbols * d_symbol_length` and in no other of the first `2 ^ 32 * d_symbol_length`
iterations: a window is opened by a trigger only. -/
theorem update_once_after_trigger (m : gr_math K) (blk : dab_ofdm_ffe_all_in_one K)
    (input0 : Int → gr_complex K) (input1 : Int → Int)
    (hL : 1 ≤ blk.d_symbol_length) (hLR : blk.d_symbol_length < UINT_RANGE)
    (hN : 1 ≤ blk.d_num_symbols) (hNR : blk.d_num_symbols < UINT_RANGE)
    (htrig : input1 blk.d_symbol_length = 1)
    (hclear : ∀ i : Nat, 1 ≤ i → input1 ((blk.d_symbol_length : Int) + (i : Int)) ≠ 1)
    (n : Nat) (hn : n ≤ UINT_RANGE * blk.d_symbol_length) :
    (work m blk n input0 input1).2.2.1.length = n ∧
      ∀ (j : Nat) (l : List (log_line K)), (work m blk n input0 input1).2.2.1[j]? = some l →
        ((∃ e hz, log_line.estimated_error e hz ∈ l) ↔
          j + 1 = blk.d_num_symbols * blk.d_symbol_length) := by
  obtain ⟨-, -, -, r4, r5⟩ := counters_run m blk input0 input1 blk.d_symbol_length
    blk.d_symbol_length hL hLR htrig hclear n hn
  refine ⟨r4, fun j l hjl => ?_⟩
  rw [r5 j l hjl, uint_sub_one _ hN hNR]
  constructor
  · rintro ⟨h1, h2⟩
    rcases succ_div_mod blk.d_symbol_length j hL with ⟨e1, -, -⟩ | ⟨-, e2, -⟩
    · exact absurd h1 e1
    · have h3 := Nat.div_add_mod (j + 1) blk.d_symbol_length
      rw [h1, e2, h2, Nat.sub_add_cancel hN, Nat.add_zero, Nat.mul_comm] at h3
      exact h3.symm
  · intro h
    have h1 : (j + 1) % blk.d_symbol_length = 0 := by rw [h]; exact Nat.mul_mod_left _ _
    have h2 : (j + 1) / blk.d_symbol_length = blk.d_num_symbols := by
      rw [h]; exact Nat.mul_div_cancel _ hL
    rcases succ_div_mod blk.d_symbol_length j hL with ⟨e1, -, -⟩ | ⟨-, e2, -⟩
    · exact absurd h1 e1
    · refine ⟨h1, ?_⟩
      rw [e2] at h2
      rw [← h2]
      rfl

end stream

section invariants

variable {K : Type} [LinearOrderedField K]

/-- C13. Sample-counter invariant. For `symbol_length ≥ 1`, after any number of iterations
of `work` from the state the constructor leaves, on any input streams, `d_cur_sample` is
less than `d_symbol_length`. -/
theorem sample_counter_invariant (m : gr_math K) (symbol_length fft_length num_symbols : Nat)
    (alpha : K) (sample_rate : Nat) (input0 : Int → gr_complex K) (input1 : Int → Int)
    (n : Nat) (hL : 1 ≤ symbol_length) :
    (work m (dab_make_ofdm_ffe_all_in_one symbol_length fft_length num_symbols alpha sample_rate)
      n input0 input1).1.d_cur_sample < symbol_length :=
  (work_loop_cur_sample m input0 input1 symbol_length symbol_length
    (dab_make_ofdm_ffe_all_in_one symbol_length fft_length num_symbols alpha sample_rate)
    hL hL n).2

/-- C15. Per-sample scaling invariant. After any number of iterations of `work` from the
state the constructor leaves, `d_estimated_error_per_sample` is
`d_estimated_error / d_fft_length`, and the output of every iteration is the
`d_estimated_error` that stands after that iteration, divided by `d_fft_length`. -/
theorem per_sample_scaling_invariant (m : gr_math K)
    (symbol_length fft_length num_symbols : Nat) (alpha : K) (sample_rate : Nat)
    (input0 : Int → gr_complex K) (input1 : Int → Int) (n : Nat) :
    (work m (dab_make_ofdm_ffe_all_in_one symbol_length fft_length num_symbols alpha sample_rate)
        n input0 input1).1.d_estimated_error_per_sample =
        (work m
          (dab_make_ofdm_ffe_all_in_one symbol_length fft_length num_symbols alpha sample_rate)
          n input0 input1).1.d_estimated_error / (fft_length : K) ∧
      ∀ (i : Nat) (o : K),
        (work m
          (dab_make_ofdm_ffe_all_in_one symbol_length fft_length num_symbols alpha sample_rate)
          n input0 input1).2.1[i]? = some o →
        o = (work m
          (dab_make_ofdm_ffe_all_in_one symbol_length fft_length num_symbols alpha sample_rate)
          (i + 1) input0 input1).1.d_estimated_error / (fft_length : K) := by
  have hstate : ∀ k : Nat,
      (work_loop m input0 input1 k symbol_length symbol_length
        (dab_make_ofdm_ffe_all_in_one symbol_length fft_length num_symbols alpha
          sample_rate)).1.d_fft_length = fft_length ∧
      (work_loop m input0 input1 k symbol_length symbol_length
        (dab_make_ofdm_ffe_all_in_one symbol_length fft_length num_symbols alpha
          sample_rate)).1.d_estimated_error_per_sample =
        (work_loop m input0 input1 k symbol_length symbol_length
          (dab_make_ofdm_ffe_all_in_one symbol_length fft_length num_symbols alpha
            sample_rate)).1.d_estimated_error / (fft_length : K) := by
    intro k
    induction k with
    | zero => simp [work_loop, dab_make_ofdm_ffe_all_in_one]
    | succ j ih =>
      rw [work_loop_snoc]
      obtain ⟨-, w2, -⟩ := work_iter_lengths m
        (work_loop m input0 input1 j symbol_length symbol_length
          (dab_make_ofdm_ffe_all_in_one symbol_length fft_length num_symbols alpha
            sample_rate)).1
        (fun i => input0 ((symbol_length : Int) + (j : Int) + i))
        (input1 ((symbol_length : Int) + (j : Int)))
      have := work_iter_scaling m
        (work_loop m input0 input1 j symbol_length symbol_length
          (dab_make_ofdm_ffe_all_in_one symbol_length fft_length num_symbols alpha
            sample_rate)).1
        (fun i => input0 ((symbol_length : Int) + (j : Int) + i))
        (input1 ((symbol_length : Int) + (j : Int))) (by rw [ih.1]; exact ih.2)
      rw [ih.1] at this w2
      exact ⟨w2, this⟩
  refine ⟨(hstate n).2, ?_⟩
  simp only [work, dab_make_ofdm_ffe_all_in_one] at hstate ⊢
  induction n with
  | zero => intro i o h; simp [work_loop] at h
  | succ k ih =>
    intro i o h
    rw [work_loop_snoc] at h
    simp only at h
    rcases Nat.lt_or_ge i k with hik | hik
    · rw [List.getElem?_append_left (by rw [work_loop_length]; exact hik)] at h
      exact ih i o h
    · rw [List.getElem?_append_right (by rw [work_loop_length]; exact hik),
        work_loop_length] at h
      rcases Nat.eq_or_lt_of_le hik with e | hlt
      · subst e
        simp only [Nat.sub_self, List.getElem?_cons_zero, Option.some.injEq] at h
        rw [← h, work_loop_snoc]
        have := (hstate (k + 1)).2
        rw [work_loop_snoc] at this
        simpa [work_iter] using this
      · have e : i - k = (i - k - 1) + 1 := by omega
        rw [e] at h
        simp at h

end invariants

section behaviour

variable {K : Type} [LinearOrderedField K]

/-- C17. Idle outside a window. For a block with `d_cur_symbol ≥ d_num_symbols`
(`d_num_symbols ≥ 1`) and a clear trigger, an iteration of `work` leaves `d_ffs_error_sum`,
`d_estimated_error` and `d_estimated_error_per_sample` as they were, writes the old
`d_estimated_error_per_sample`, prints nothing, and its result is the same for every
`gr_fast_atan2f` and every sample stream, so `calc_ffe_estimate` plays no part in it.
Hence, from the state the constructor leaves, a stream without trigger makes `work` write 0
in every iteration up to the one in which the symbol counter would wrap, the first
`(2 ^ 32 - num_symbols) * symbol_length` iterations. -/
theorem idle_outside_window (m : gr_math K) (blk : dab_ofdm_ffe_all_in_one K)
    (inp : Int → gr_complex K) (t : Int) (hN : 1 ≤ blk.d_num_symbols)
    (hidle : blk.d_num_symbols ≤ blk.d_cur_symbol) (ht : t ≠ 1) :
    (work_iter m blk inp t).1.d_ffs_error_sum = blk.d_ffs_error_sum ∧
      (work_iter m blk inp t).1.d_estimated_error = blk.d_estimated_error ∧
      (work_iter m blk inp t).1.d_estimated_error_per_sample =
        blk.d_estimated_error_per_sample ∧
      (work_iter m blk inp t).2.1 = blk.d_estimated_error_per_sample ∧
      (work_iter m blk inp t).2.2 = [] ∧
      (∀ (m' : gr_math K) (inp' : Int → gr_complex K),
        work_iter m' blk inp' t = work_iter m blk inp t) ∧
      ∀ (symbol_length fft_length num_symbols : Nat) (alpha : K) (sample_rate : Nat)
        (input0 : Int → gr_complex K) (input1 : Int → Int) (n : Nat),
        1 ≤ symbol_length → symbol_length < UINT_RANGE →
        1 ≤ num_symbols → num_symbols < UINT_RANGE →
        n ≤ (UINT_RANGE - num_symbols) * symbol_length →
        (∀ i : Nat, i < n → input1 ((symbol_length : Int) + (i : Int)) ≠ 1) →
        (work m
          (dab_make_ofdm_ffe_all_in_one symbol_length fft_length num_symbols alpha sample_rate)
          n input0 input1).2.1 = List.replicate n 0 := by
  have h := work_iter_idle m blk inp t hN hidle ht
  refine ⟨?_, ?_, ?_, ?_, ?_, ?_, ?_⟩
  · rw [h]; split <;> rfl
  · rw [h]; split <;> rfl
  · rw [h]; split <;> rfl
  · rw [h]
  · rw [h]
  · intro m' inp'
    rw [h, work_iter_idle m' blk inp' t hN hidle ht]
  · intro symbol_length fft_length num_symbols alpha sample_rate input0 input1 n h1 h2 h3 h4
      hn hclear
    exact (idle_run m symbol_length fft_length num_symbols alpha sample_rate input0 input1
      symbol_length symbol_length h1 h2 h3 h4 n hclear hn).1

/-- C18. The unwrap inside the window picks the nearest representative. At a symbol
boundary inside the window with `d_cur_symbol > 0`, if the estimate `e` of the symbol and
the running average `a = d_ffs_error_sum / d_cur_symbol` both lie in `[-M_PI, M_PI]`, then
the value `e'` that lines 99-106 add to `d_ffs_error_sum` is `e`, `e - 2 * M_PI` or
`e + 2 * M_PI`, and `|e' - a| ≤ M_PI`. -/
theorem unwrap_nearest (m : gr_math K) (blk : dab_ofdm_ffe_all_in_one K)
    (inp : Int → gr_complex K) (h0 : 0 < blk.d_cur_symbol)
    (hN : blk.d_cur_symbol < blk.d_num_symbols) (e a e' : K)
    (he : e = calc_ffe_estimate m blk inp)
    (ha : a = blk.d_ffs_error_sum / (blk.d_cur_symbol : K))
    (he' : e' = (accumulate m blk inp).d_ffs_error_sum - blk.d_ffs_error_sum)
    (h1 : -m.M_PI ≤ e) (h2 : e ≤ m.M_PI) (h3 : -m.M_PI ≤ a) (h4 : a ≤ m.M_PI) :
    (e' = e ∨ e' = e - 2 * m.M_PI ∨ e' = e + 2 * m.M_PI) ∧ |e' - a| ≤ m.M_PI := by
  have hk : (0 : K) < (blk.d_cur_symbol : K) := by exact_mod_cast h0
  have hs : blk.d_ffs_error_sum = a * (blk.d_cur_symbol : K) := by
    rw [ha, div_mul_cancel₀ _ hk.ne']
  have hval : e' = unwrap_new_estimate m.M_PI blk.d_cur_symbol blk.d_ffs_error_sum e := by
    rw [he', he]
    simp only [accumulate, if_pos hN]
    ring
  rw [hval]
  unfold unwrap_new_estimate
  rw [if_pos h0, ← ha]
  by_cases c1 : blk.d_ffs_error_sum < 0 ∧ e > 0 ∧ e - a > m.M_PI
  · rw [if_pos c1]
    refine ⟨Or.inr (Or.inl rfl), ?_⟩
    rw [abs_le]
    constructor <;> linarith [c1.2.2]
  · rw [if_neg c1]
    by_cases c2 : blk.d_ffs_error_sum > 0 ∧ e < 0 ∧ a - e > m.M_PI
    · rw [if_pos c2]
      refine ⟨Or.inr (Or.inr rfl), ?_⟩
      rw [abs_le]
      constructor <;> linarith [c2.2.2]
    · rw [if_neg c2]
      refine ⟨Or.inl rfl, ?_⟩
      rw [abs_le]
      constructor
      · by_contra hlt
        have hlt' : a - e > m.M_PI := by linarith [not_le.mp hlt]
        have hapos : 0 < a := by linarith
        have heneg : e < 0 := by linarith
        exact c2 ⟨by rw [hs]; exact mul_pos hapos hk, heneg, hlt'⟩
      · by_contra hgt
        have hgt' : e - a > m.M_PI := by linarith [not_le.mp hgt]
        have haneg : a < 0 := by linarith
        have hepos : e > 0 := by linarith
        exact c1 ⟨by rw [hs]; exact mul_neg_of_neg_of_pos haneg hk, hepos, hgt'⟩

/-- C19. Smoothing is a convex combination. For `0 < d_alpha ≤ 1`, at a symbol boundary
that completes the window, let `previous` be `d_estimated_error` after lines 120-126, which
is the old `d_estimated_error`, that plus `2 * M_PI` or that minus `2 * M_PI`. The new
`d_estimated_error` lies between `window_avg` and `previous`, and it is `window_avg` when
`d_alpha = 1`. -/
theorem smoothing_convex (m : gr_math K) (blk : dab_ofdm_ffe_all_in_one K)
    (inp : Int → gr_complex K) (trigger : Int)
    (hN : 1 ≤ blk.d_num_symbols) (hR : blk.d_num_symbols < UINT_RANGE)
    (hb : (count_sample blk trigger).d_cur_sample = blk.d_symbol_length)
    (hl : (frame_start blk trigger).d_cur_symbol = blk.d_num_symbols - 1)
    (ha0 : 0 < blk.d_alpha) (ha1 : blk.d_alpha ≤ 1) (window_avg previous : K)
    (havg : window_avg =
      ((frame_start blk trigger).d_ffs_error_sum +
        unwrap_new_estimate m.M_PI (frame_start blk trigger).d_cur_symbol
          (frame_start blk trigger).d_ffs_error_sum (calc_ffe_estimate m blk inp)) /
        (blk.d_num_symbols : K))
    (hprev : previous = (switch_detect m.M_PI blk.d_estimated_error window_avg).1) :
    (previous = blk.d_estimated_error ∨ previous = blk.d_estimated_error + 2 * m.M_PI ∨
        previous = blk.d_estimated_error - 2 * m.M_PI) ∧
      min window_avg previous ≤ (work_iter m blk inp trigger).1.d_estimated_error ∧
      (work_iter m blk inp trigger).1.d_estimated_error ≤ max window_avg previous ∧
      (blk.d_alpha = 1 → (work_iter m blk inp trigger).1.d_estimated_error = window_avg) := by
  rw [work_iter_last m blk inp trigger hN hR hb hl window_avg
    (adjust blk.d_alpha previous window_avg) havg (by rw [hprev])]
  refine ⟨?_, ?_, ?_, ?_⟩
  · rw [hprev]
    unfold switch_detect
    split
    · exact Or.inr (Or.inl rfl)
    · split
      · exact Or.inr (Or.inr rfl)
      · exact Or.inl rfl
  · show min window_avg previous ≤ adjust blk.d_alpha previous window_avg
    unfold adjust
    split
    · exact min_le_left _ _
    · rcases le_total window_avg previous with h | h
      · rw [min_eq_left h]
        nlinarith [mul_nonneg (sub_nonneg.mpr ha1) (sub_nonneg.mpr h)]
      · rw [min_eq_right h]
        nlinarith [mul_nonneg ha0.le (sub_nonneg.mpr h)]
  · show adjust blk.d_alpha previous window_avg ≤ max window_avg previous
    unfold adjust
    split
    · exact le_max_left _ _
    · rcases le_total window_avg previous with h | h
      · rw [max_eq_right h]
        nlinarith [mul_nonneg ha0.le (sub_nonneg.mpr h)]
      · rw [max_eq_left h]
        nlinarith [mul_nonneg (sub_nonneg.mpr ha1) (sub_nonneg.mpr h)]
  · intro h1
    show adjust blk.d_alpha previous window_avg = window_avg
    unfold adjust
    split
    · rfl
    · rw [h1]; ring

end behaviour

section counters

variable {K : Type} [LinearOrderedField K]

/-- C14 (amended). Symbol counter. In a state reached from any block by an iteration with
the trigger set followed by iterations without trigger, `n` iterations in all with
`1 ≤ n < 2 ^ 32 * d_symbol_length`, `d_cur_symbol` is `n / d_symbol_length`, the number of
symbols that have ended since the trigger. So it lies in `[0, d_num_symbols]` exactly as
long as `n < (d_num_symbols + 1) * d_symbol_length`; after that it is above
`d_num_symbols`, because line 140 counts every symbol boundary. -/
theorem symbol_counter_after_trigger (m : gr_math K) (blk : dab_ofdm_ffe_all_in_one K)
    (input0 : Int → gr_complex K) (input1 : Int → Int)
    (hL : 1 ≤ blk.d_symbol_length) (hLR : blk.d_symbol_length < UINT_RANGE)
    (htrig : input1 blk.d_symbol_length = 1)
    (hclear : ∀ i : Nat, 1 ≤ i → input1 ((blk.d_symbol_length : Int) + (i : Int)) ≠ 1)
    (n : Nat) (h1 : 1 ≤ n) (hn : n < UINT_RANGE * blk.d_symbol_length) :
    (work m blk n input0 input1).1.d_cur_symbol = n / blk.d_symbol_length ∧
      ((work m blk n input0 input1).1.d_cur_symbol ≤ blk.d_num_symbols ↔
        n < (blk.d_num_symbols + 1) * blk.d_symbol_length) := by
  obtain ⟨-, -, r3, -, -⟩ := counters_run m blk input0 input1 blk.d_symbol_length
    blk.d_symbol_length hL hLR htrig hclear n hn.le
  have h := (r3 h1 hn).2
  simp only [work]
  rw [h]
  refine ⟨rfl, ?_⟩
  rw [← Nat.lt_succ_iff]
  exact Nat.div_lt_iff_lt_mul hL

end counters

section accumulator

variable {K : Type} [LinearOrderedField K]

/-- C16 (amended). Accumulator invariant. In a state reached from any block by an iteration
with the trigger set followed by iterations without trigger, with `k = d_cur_symbol` and
`k ≤ d_num_symbols`: if `k < d_num_symbols`, `d_ffs_error_sum` is the running sum of the
unwrapped estimates of the symbols `0 .. k-1` of the window; if `k = d_num_symbols`, the
window has been completed and `d_ffs_error_sum` is that sum divided by `d_num_symbols`, the
window average that line 110 stores in it. -/
theorem accumulator_invariant (m : gr_math K) (blk : dab_ofdm_ffe_all_in_one K)
    (input0 : Int → gr_complex K) (input1 : Int → Int)
    (hL : 1 ≤ blk.d_symbol_length) (hLR : blk.d_symbol_length < UINT_RANGE)
    (hN : 1 ≤ blk.d_num_symbols) (hNR : blk.d_num_symbols < UINT_RANGE)
    (htrig : input1 blk.d_symbol_length = 1)
    (hclear : ∀ i : Nat, 1 ≤ i → input1 ((blk.d_symbol_length : Int) + (i : Int)) ≠ 1)
    (n : Nat) (h1 : 1 ≤ n) (hn : n < UINT_RANGE * blk.d_symbol_length)
    (hk : (work m blk n input0 input1).1.d_cur_symbol ≤ blk.d_num_symbols) :
    ((work m blk n input0 input1).1.d_cur_symbol < blk.d_num_symbols →
        (work m blk n input0 input1).1.d_ffs_error_sum =
          spec_running_sum m.M_PI (symbol_estimate m blk input0)
            (work m blk n input0 input1).1.d_cur_symbol) ∧
      ((work m blk n input0 input1).1.d_cur_symbol = blk.d_num_symbols →
        (work m blk n input0 input1).1.d_ffs_error_sum =
          spec_running_sum m.M_PI (symbol_estimate m blk input0) blk.d_num_symbols /
            (blk.d_num_symbols : K)) := by
  obtain ⟨-, -, r3, -, -⟩ := counters_run m blk input0 input1 blk.d_symbol_length
    blk.d_symbol_length hL hLR htrig hclear n hn.le
  have hc := (r3 h1 hn).2
  simp only [work] at hk ⊢
  rw [hc] at hk ⊢
  have hlt : n < (blk.d_num_symbols + 1) * blk.d_symbol_length :=
    (Nat.div_lt_iff_lt_mul hL).mp (Nat.lt_succ_of_le hk)
  have hs := sum_run m blk input0 input1 hL hLR hN hNR htrig hclear n h1 hlt
  constructor
  · intro h
    rw [hs, if_pos h]
  · intro h
    rw [hs, if_neg (by omega)]

end accumulator

section subscript

/-- C10. Zero offset should give a zero raw estimate; the code does not deliver it. With
`gr_fast_atan2f` the exact argument of a complex number, `symbol_length = 2`,
`fft_length = 1` and a window whose sample `in[-1]` is an exact copy of `in[-1 - 1]`,
`calc_ffe_estimate` multiplies `conj(in[-1])` with `in[4294967294]`, the sample at the
`unsigned int` subscript of line 61, and returns the argument `π / 2` of that product. -/
theorem zero_offset_estimate_reads_ahead :
    (dab_make_ofdm_ffe_all_in_one 2 1 1 (1 / 10 : ℝ) 1).d_fft_length <
        (dab_make_ofdm_ffe_all_in_one 2 1 1 (1 / 10 : ℝ) 1).d_symbol_length ∧
      (∀ i : Int, -((2 : Int) - 1) ≤ i → i ≤ -1 →
        (example_straddle (3 + (i - 1)) : gr_complex ℝ) = example_straddle (3 + i)) ∧
      calc_ffe_estimate ⟨Real.pi, fun y x => Complex.arg ⟨x, y⟩⟩
        (dab_make_ofdm_ffe_all_in_one 2 1 1 (1 / 10 : ℝ) 1)
        (fun j => example_straddle (3 + j)) = Real.pi / 2 ∧
      Real.pi / 2 ≠ 0 := by
  refine ⟨by simp [dab_make_ofdm_ffe_all_in_one], ?_, ?_, ?_⟩
  · intro i h1 h2
    have hi : i = -1 := by omega
    subst hi
    norm_num [example_straddle]
  · have hz : (⟨0, 3⟩ : ℂ) = ((3 : ℝ) : ℂ) * Complex.I := by
      apply Complex.ext <;> simp
    have harg : Complex.arg ⟨0, 3⟩ = Real.pi / 2 := by
      rw [hz, Complex.arg_real_mul _ (by norm_num : (0 : ℝ) < 3), Complex.arg_I]
    norm_num [calc_ffe_estimate, calc_ffe_loop, to_uint, cp_length, to_int, uint_sub,
      UINT_RANGE, dab_make_ofdm_ffe_all_in_one, example_straddle, gr_complex.add,
      gr_complex.mul, conj, harg]
  · have := Real.pi_pos
    intro h
    linarith

/-- C11. The lookback bound should hold; the code does not keep it. With
`symbol_length = 10` and `fft_length = 8` the loop of `calc_ffe_estimate` reads `in` at the
subscripts 4294967286, -2, 4294967287 and -1: the two reads meant for `in[-10]` and
`in[-9]` go to the `unsigned int` subscripts of line 61, outside `[-symbol_length, -1]`,
outside `[-(symbol_length+1), 0]` and, in the first iteration of a call of `work` for 64
items, beyond the `noutput_items + history - 1` items of the buffer. The reads are real:
two windows that agree at every subscript but 4294967286 have different sums. -/
theorem lookback_read_ahead :
    calc_ffe_reads (dab_make_ofdm_ffe_all_in_one 10 8 4 (1 / 10 : ℚ) 1).d_fft_length
        (cp_length (dab_make_ofdm_ffe_all_in_one 10 8 4 (1 / 10 : ℚ) 1)).toNat =
        [4294967286, -2, 4294967287, -1] ∧
      ¬ (-((10 : Int) + 1) ≤ 4294967286 ∧ (4294967286 : Int) ≤ 0) ∧
      ((64 + history 10 - 1 : Nat) : Int) ≤ (10 : Int) + 0 + 4294967286 ∧
      (∀ j : Int, j ≠ 4294967286 → (example_far j : gr_complex ℚ) = example_flat j) ∧
      calc_ffe_loop (dab_make_ofdm_ffe_all_in_one 10 8 4 (1 / 10 : ℚ) 1).d_fft_length
        (example_flat : Int → gr_complex ℚ)
        (cp_length (dab_make_ofdm_ffe_all_in_one 10 8 4 (1 / 10 : ℚ) 1)).toNat ⟨0, 0⟩ =
        ⟨2, 0⟩ ∧
      calc_ffe_loop (dab_make_ofdm_ffe_all_in_one 10 8 4 (1 / 10 : ℚ) 1).d_fft_length
        (example_far : Int → gr_complex ℚ)
        (cp_length (dab_make_ofdm_ffe_all_in_one 10 8 4 (1 / 10 : ℚ) 1)).toNat ⟨0, 0⟩ =
        ⟨1, 1⟩ := by
  refine ⟨by decide, by decide, by decide, ?_, ?_, ?_⟩
  · intro j hj
    simp [example_far, example_flat, hj]
  · norm_num [calc_ffe_loop, to_uint, cp_length, to_int, uint_sub, UINT_RANGE,
      dab_make_ofdm_ffe_all_in_one, example_flat, gr_complex.add, gr_complex.mul, conj]
  · norm_num [calc_ffe_loop, to_uint, cp_length, to_int, uint_sub, UINT_RANGE,
      dab_make_ofdm_ffe_all_in_one, example_far, gr_complex.add, gr_complex.mul, conj]

/-- C12. The outputs should depend on the inputs seen so far only; in the code they do
not. With `gr_fast_atan2f` the exact argument of a complex number, `symbol_length = 2`,
`fft_length = 1`, `num_symbols = 1` and the same trigger stream, set on the first iteration,
the sample streams `example_straddle` and `example_flat` agree at every position before
4294967297, far beyond the two samples and their lookback that two iterations of `work`
cover. Yet the second output is `π / 2` for the one and 0 for the other: the iteration reads
the sample 4294967294 places after its pointer. -/
theorem output_depends_on_sample_ahead :
    (∀ p : Int, p < 4294967297 → (example_straddle p : gr_complex ℝ) = example_flat p) ∧
      (work ⟨Real.pi, fun y x => Complex.arg ⟨x, y⟩⟩
        (dab_make_ofdm_ffe_all_in_one 2 1 1 (1 / 10 : ℝ) 1) 2 example_straddle
        (example_input1 2)).2.1 = [0, Real.pi / 2] ∧
      (work ⟨Real.pi, fun y x => Complex.arg ⟨x, y⟩⟩
        (dab_make_ofdm_ffe_all_in_one 2 1 1 (1 / 10 : ℝ) 1) 2 example_flat
        (example_input1 2)).2.1 = [0, 0] ∧
      Real.pi / 2 ≠ 0 := by
  have hz : (⟨0, 3⟩ : ℂ) = ((3 : ℝ) : ℂ) * Complex.I := by
    apply Complex.ext <;> simp
  have harg : Complex.arg ⟨0, 3⟩ = Real.pi / 2 := by
    rw [hz, Complex.arg_real_mul _ (by norm_num : (0 : ℝ) < 3), Complex.arg_I]
  have hz1 : (⟨1, 0⟩ : ℂ) = 1 := by
    apply Complex.ext <;> simp
  have harg1 : Complex.arg ⟨1, 0⟩ = 0 := by
    rw [hz1, Complex.arg_one]
  refine ⟨?_, ?_, ?_, ?_⟩
  · intro p hp
    have h1 : p ≠ 4294967297 := by omega
    have h2 : p ≠ 4294967299 := by omega
    simp [example_straddle, example_flat, h1, h2]
  · norm_num [work, work_loop, work_iter, count_sample, frame_start, new_symbol, accumulate,
      update_estimated_error, switch_detect, adjust, unwrap_new_estimate, calc_ffe_estimate,
      calc_ffe_loop, to_uint, cp_length, to_int, uint_sub, uint_incr, UINT_RANGE,
      dab_make_ofdm_ffe_all_in_one, example_straddle, example_input1, gr_complex.add,
      gr_complex.mul, conj, harg]
  · norm_num [work, work_loop, work_iter, count_sample, frame_start, new_symbol, accumulate,
      update_estimated_error, switch_detect, adjust, unwrap_new_estimate, calc_ffe_estimate,
      calc_ffe_loop, to_uint, cp_length, to_int, uint_sub, uint_incr, UINT_RANGE,
      dab_make_ofdm_ffe_all_in_one, example_flat, example_input1, gr_complex.add,
      gr_complex.mul, conj, harg1]
  · have := Real.pi_pos
    intro h
    linarith

/-- C20. A rotation by `theta` over `fft_length` samples should give the estimate `-theta`;
the code does not deliver it. With `gr_fast_atan2f` the exact argument of a complex number,
`symbol_length = 2`, `fft_length = 1`, `theta = π / 2` and a window whose sample `in[-1]`
is the non-zero `in[-1 - 1]` turned by `theta`, `calc_ffe_estimate` multiplies
`conj(in[-1])` with `in[4294967294]`, the sample at the `unsigned int` subscript of
line 61, and returns 0, not `-(π / 2)`. -/
theorem sign_convention_reads_ahead :
    (dab_make_ofdm_ffe_all_in_one 2 1 1 (1 / 10 : ℝ) 1).d_fft_length <
        (dab_make_ofdm_ffe_all_in_one 2 1 1 (1 / 10 : ℝ) 1).d_symbol_length ∧
      (-Real.pi < Real.pi / 2 ∧ Real.pi / 2 < Real.pi) ∧
      (∀ i : Int, -((2 : Int) - 1) ≤ i → i ≤ -1 →
        (example_turned i : gr_complex ℝ) =
          (gr_complex.mk (Real.cos (Real.pi / 2)) (Real.sin (Real.pi / 2))).mul
            (example_turned (i - 1))) ∧
      (example_turned (-1 - 1) : gr_complex ℝ) ≠ ⟨0, 0⟩ ∧
      calc_ffe_estimate ⟨Real.pi, fun y x => Complex.arg ⟨x, y⟩⟩
        (dab_make_ofdm_ffe_all_in_one 2 1 1 (1 / 10 : ℝ) 1) example_turned = 0 ∧
      (0 : ℝ) ≠ -(Real.pi / 2) := by
  refine ⟨by simp [dab_make_ofdm_ffe_all_in_one], ⟨by linarith [Real.pi_pos],
    by linarith [Real.pi_pos]⟩, ?_, ?_, ?_, ?_⟩
  · intro i h1 h2
    have hi : i = -1 := by omega
    subst hi
    rw [Real.cos_pi_div_two, Real.sin_pi_div_two]
    norm_num [example_turned, gr_complex.mul]
  · simp [example_turned]
  · have hz : (⟨1, 0⟩ : ℂ) = 1 := by
      apply Complex.ext <;> simp
    have harg : Complex.arg ⟨1, 0⟩ = 0 := by
      rw [hz, Complex.arg_one]
    norm_num [calc_ffe_estimate, calc_ffe_loop, to_uint, cp_length, to_int, uint_sub,
      UINT_RANGE, dab_make_ofdm_ffe_all_in_one, example_turned, gr_complex.add,
      gr_complex.mul, conj, harg]
  · have := Real.pi_pos
    intro h
    linarith

end subscript

section examples

/-- The amended C5 at `symbol_length = 2`, `num_symbols = 1` and four iterations. -/
theorem update_once_after_trigger_witness :
    (work (⟨355 / 113, example_atan2f⟩ : gr_math ℚ)
        (dab_make_ofdm_ffe_all_in_one 2 1 1 (1 / 10) 1) 4 example_flat
        (example_input1 2)).2.2.1.length = 4 ∧
      ∀ (j : Nat) (l : List (log_line ℚ)),
        (work (⟨355 / 113, example_atan2f⟩ : gr_math ℚ)
          (dab_make_ofdm_ffe_all_in_one 2 1 1 (1 / 10) 1) 4 example_flat
          (example_input1 2)).2.2.1[j]? = some l →
        ((∃ e hz, log_line.estimated_error e hz ∈ l) ↔ j + 1 = 1 * 2) :=
  update_once_after_trigger (⟨355 / 113, example_atan2f⟩ : gr_math ℚ)
    (dab_make_ofdm_ffe_all_in_one 2 1 1 (1 / 10) 1) example_flat (example_input1 2)
    (by decide) (by decide) (by decide) (by decide) (by decide)
    (by intro i hi; simp [example_input1, dab_make_ofdm_ffe_all_in_one]; omega) 4 (by decide)

/-- C5 as stated fails: with `symbol_length = 2` and `num_symbols = 1` the second symbol ends
in iteration 4, and only iteration 2 performs the update. -/
theorem update_every_window_counterexample :
    (work (⟨355 / 113, example_atan2f⟩ : gr_math ℚ)
        (dab_make_ofdm_ffe_all_in_one 2 1 1 (1 / 10) 1) 4 example_flat
        (example_input1 2)).2.2.1 = [[], [log_line.estimated_error 0 0], [], []] := by
  simp [work, work_loop, work_iter, count_sample, frame_start, new_symbol, accumulate,
    update_estimated_error, switch_detect, adjust, unwrap_new_estimate, calc_ffe_estimate,
    calc_ffe_loop, to_uint, cp_length, to_int, uint_sub, uint_incr, UINT_RANGE,
    dab_make_ofdm_ffe_all_in_one, example_atan2f, example_flat, example_input1,
    gr_complex.add, gr_complex.mul, conj]


/-- C1 at the configuration of the specification: `symbol_length = 10`, `fft_length = 8`,
`num_symbols = 4`, `alpha = 1/10` and `theta = 1/20`. -/
theorem window_scenario_witness :
    (work (⟨355 / 113, example_atan2f⟩ : gr_math ℚ)
          (dab_make_ofdm_ffe_all_in_one 10 8 4 (1 / 10) 1) (4 * 10) example_input0
          (example_input1 10)).2.1 =
        List.replicate (4 * 10 - 1) 0 ++ [(1 / 20 : ℚ) / ((8 : Nat) : ℚ)] ∧
      (work (⟨355 / 113, example_atan2f⟩ : gr_math ℚ)
          (dab_make_ofdm_ffe_all_in_one 10 8 4 (1 / 10) 1) (4 * 10) example_input0
          (example_input1 10)).1.d_estimated_error = 1 / 20 ∧
      (work (⟨355 / 113, example_atan2f⟩ : gr_math ℚ)
          (dab_make_ofdm_ffe_all_in_one 10 8 4 (1 / 10) 1) (4 * 10) example_input0
          (example_input1 10)).1.d_estimated_error_per_sample = (1 / 20 : ℚ) / ((8 : Nat) : ℚ) ∧
      (work (⟨355 / 113, example_atan2f⟩ : gr_math ℚ)
          (dab_make_ofdm_ffe_all_in_one 10 8 4 (1 / 10) 1) (4 * 10 - 1) example_input0
          (example_input1 10)).1.d_estimated_error = 0 :=
  window_scenario (⟨355 / 113, example_atan2f⟩ : gr_math ℚ) 10 8 4 (1 / 10) 1 (1 / 20)
    example_input0 (example_input1 10) (by decide) (by decide) (by decide) (by decide)
    (by decide) (by decide)
    (by intro i hi _; simp [example_input1]; omega)
    (by
      intro j hj hm
      have hcases : j = 9 ∨ j = 19 ∨ j = 29 ∨ j = 39 := by omega
      rcases hcases with h | h | h | h <;> subst h <;>
        norm_num [calc_ffe_estimate, calc_ffe_loop, to_uint, cp_length, to_int, uint_sub, UINT_RANGE,
          dab_make_ofdm_ffe_all_in_one, example_atan2f, example_input0, gr_complex.add,
          gr_complex.mul, conj])


/-- C2 at a block in the middle of a window, with the clear trigger byte 0. -/
theorem trigger_reset_witness :
    work_iter (⟨355 / 113, example_atan2f⟩ : gr_math ℚ) (example_block 2 1 3 1)
        (fun j => example_straddle (5 + j)) 1 =
        work_iter (⟨355 / 113, example_atan2f⟩ : gr_math ℚ)
          { example_block 2 1 3 1 with d_cur_symbol := 0, d_cur_sample := 0, d_ffs_error_sum := 0 }
          (fun j => example_straddle (5 + j)) 0 ∧
      ∀ (cur_symbol cur_sample : Nat) (ffs_error_sum : ℚ),
        work_iter (⟨355 / 113, example_atan2f⟩ : gr_math ℚ)
            { example_block 2 1 3 1 with
              d_cur_symbol := cur_symbol, d_cur_sample := cur_sample,
              d_ffs_error_sum := ffs_error_sum } (fun j => example_straddle (5 + j)) 1 =
          work_iter (⟨355 / 113, example_atan2f⟩ : gr_math ℚ) (example_block 2 1 3 1)
            (fun j => example_straddle (5 + j)) 1 :=
  trigger_reset (⟨355 / 113, example_atan2f⟩ : gr_math ℚ) (example_block 2 1 3 1)
    (fun j => example_straddle (5 + j)) 0 (by decide)

/-- C3 at a block with `symbol_length = 2` and a published estimate of 1. -/
theorem published_estimate_survives_trigger_witness :
    (work_iter (⟨355 / 113, example_atan2f⟩ : gr_math ℚ) (example_block 2 1 3 1)
        (fun j => example_straddle (5 + j)) 1).1.d_estimated_error =
        (example_block 2 1 3 (1 : ℚ)).d_estimated_error ∧
      (work_iter (⟨355 / 113, example_atan2f⟩ : gr_math ℚ) (example_block 2 1 3 1)
        (fun j => example_straddle (5 + j)) 1).1.d_estimated_error_per_sample =
        (example_block 2 1 3 (1 : ℚ)).d_estimated_error_per_sample ∧
      (work_iter (⟨355 / 113, example_atan2f⟩ : gr_math ℚ) (example_block 2 1 3 1)
        (fun j => example_straddle (5 + j)) 1).2.1 =
        (example_block 2 1 3 (1 : ℚ)).d_estimated_error_per_sample :=
  published_estimate_survives_trigger (⟨355 / 113, example_atan2f⟩ : gr_math ℚ)
    (example_block 2 1 3 1) (fun j => example_straddle (5 + j)) (by decide)


/-- C4 at an iteration that changes the estimate from 0 to 3. -/
theorem published_changes_only_on_window_completion_witness :
    (work_iter (⟨355 / 113, example_atan2f⟩ : gr_math ℚ) (example_block 1 0 0 0)
        (fun j => example_straddle (3 + j)) 0).1.d_estimated_error ≠
        (example_block 1 0 0 (0 : ℚ)).d_estimated_error ∧
      (count_sample (example_block 1 0 0 (0 : ℚ)) 0).d_cur_sample =
        (example_block 1 0 0 (0 : ℚ)).d_symbol_length ∧
      (frame_start (example_block 1 0 0 (0 : ℚ)) 0).d_cur_symbol =
        uint_sub (example_block 1 0 0 (0 : ℚ)).d_num_symbols 1 ∧
      (1 ≤ (example_block 1 0 0 (0 : ℚ)).d_num_symbols →
        (example_block 1 0 0 (0 : ℚ)).d_num_symbols < UINT_RANGE →
        (frame_start (example_block 1 0 0 (0 : ℚ)) 0).d_cur_symbol =
          (example_block 1 0 0 (0 : ℚ)).d_num_symbols - 1) :=
  have hch : (work_iter (⟨355 / 113, example_atan2f⟩ : gr_math ℚ) (example_block 1 0 0 0)
      (fun j => example_straddle (3 + j)) 0).1.d_estimated_error ≠
      (example_block 1 0 0 (0 : ℚ)).d_estimated_error := by
    norm_num [work_iter, count_sample, frame_start, new_symbol, accumulate,
      update_estimated_error, switch_detect, adjust, unwrap_new_estimate, calc_ffe_estimate, calc_ffe_loop, to_uint, cp_length, to_int, uint_sub, uint_incr, UINT_RANGE,
    example_block, example_atan2f, example_straddle, gr_complex.add, gr_complex.mul, conj]
  ⟨hch, (published_changes_only_on_window_completion
    (⟨355 / 113, example_atan2f⟩ : gr_math ℚ) (example_block 1 0 0 0)
    (fun j => example_straddle (3 + j)) 0).1 (Or.inr hch)⟩

/-- C6 at a window of one symbol with the estimate 3. -/
theorem fast_acquisition_witness :
    (work_iter (⟨355 / 113, example_atan2f⟩ : gr_math ℚ) (example_block 1 0 0 0)
        (fun j => example_straddle (3 + j)) 0).1.d_estimated_error = 3 ∧
      (work_iter (⟨355 / 113, example_atan2f⟩ : gr_math ℚ) (example_block 1 0 0 0)
        (fun j => example_straddle (3 + j)) 0).1.d_estimated_error_per_sample =
        3 / (((example_block 1 0 0 (0 : ℚ)).d_fft_length : Nat) : ℚ) ∧
      (work_iter (⟨355 / 113, example_atan2f⟩ : gr_math ℚ) (example_block 1 0 0 0)
        (fun j => example_straddle (3 + j)) 0).2.1 =
        3 / (((example_block 1 0 0 (0 : ℚ)).d_fft_length : Nat) : ℚ) ∧
      (work_iter (⟨355 / 113, example_atan2f⟩ : gr_math ℚ) (example_block 1 0 0 0)
        (fun j => example_straddle (3 + j)) 0).2.2 =
        [log_line.estimated_error 3
          (3 / (((example_block 1 0 0 (0 : ℚ)).d_fft_length : Nat) : ℚ) *
            (((example_block 1 0 0 (0 : ℚ)).d_sample_rate : Nat) : ℚ) /
            (2 * (⟨355 / 113, example_atan2f⟩ : gr_math ℚ).M_PI))] :=
  fast_acquisition (⟨355 / 113, example_atan2f⟩ : gr_math ℚ) (example_block 1 0 0 0)
    (fun j => example_straddle (3 + j)) 0 (by decide) (by decide) (by decide) (by decide) rfl 3
    (by norm_num [frame_start, unwrap_new_estimate, calc_ffe_estimate, calc_ffe_loop, to_uint, cp_length, to_int, uint_sub, uint_incr, UINT_RANGE,
    example_block, example_atan2f, example_straddle, gr_complex.add, gr_complex.mul, conj])

/-- C7 at a window of one symbol with the estimate 3 and the published estimate 1. -/
theorem slow_tracking_witness :
    (work_iter (⟨355 / 113, example_atan2f⟩ : gr_math ℚ) (example_block 1 0 0 1)
        (fun j => example_straddle (3 + j)) 0).1.d_estimated_error =
        (example_block 1 0 0 (1 : ℚ)).d_alpha * 3 +
          (1 - (example_block 1 0 0 (1 : ℚ)).d_alpha) * 1 ∧
      (work_iter (⟨355 / 113, example_atan2f⟩ : gr_math ℚ) (example_block 1 0 0 1)
        (fun j => example_straddle (3 + j)) 0).1.d_estimated_error_per_sample =
        ((example_block 1 0 0 (1 : ℚ)).d_alpha * 3 +
          (1 - (example_block 1 0 0 (1 : ℚ)).d_alpha) * 1) /
          (((example_block 1 0 0 (1 : ℚ)).d_fft_length : Nat) : ℚ) ∧
      (work_iter (⟨355 / 113, example_atan2f⟩ : gr_math ℚ) (example_block 1 0 0 1)
        (fun j => example_straddle (3 + j)) 0).2.1 =
        ((example_block 1 0 0 (1 : ℚ)).d_alpha * 3 +
          (1 - (example_block 1 0 0 (1 : ℚ)).d_alpha) * 1) /
          (((example_block 1 0 0 (1 : ℚ)).d_fft_length : Nat) : ℚ) :=
  slow_tracking (⟨355 / 113, example_atan2f⟩ : gr_math ℚ) (example_block 1 0 0 1)
    (fun j => example_straddle (3 + j)) 0 (by decide) (by decide) (by decide) (by decide)
    (by norm_num [example_block]) 3
    (by norm_num [frame_start, unwrap_new_estimate, calc_ffe_estimate, calc_ffe_loop, to_uint, cp_length, to_int, uint_sub, uint_incr, UINT_RANGE,
    example_block, example_atan2f, example_straddle, gr_complex.add, gr_complex.mul, conj])
    (by norm_num [example_block]) (by norm_num [example_block])


/-- C9 at the published estimate -3 with the window average 3, and at the published
estimate 3 with the window average -3. -/
theorem cross_window_unwrap_witness :
    ((work_iter (⟨355 / 113, example_atan2f⟩ : gr_math ℚ) (example_block 1 0 0 (-3))
          (fun j => example_straddle (3 + j)) 0).1.d_estimated_error =
        1 / 10 * 3 + (1 - 1 / 10) * (-3 + 2 * (355 / 113)) ∧
      (work_iter (⟨355 / 113, example_atan2f⟩ : gr_math ℚ) (example_block 1 0 0 (-3))
          (fun j => example_straddle (3 + j)) 0).2.2.head? = some log_line.switch_neg_pos) ∧
      ((work_iter (⟨355 / 113, example_atan2f⟩ : gr_math ℚ) (example_block 1 0 0 3)
          (fun j => example_straddle (5 + j)) 0).1.d_estimated_error =
        1 / 10 * (-3) + (1 - 1 / 10) * (3 - 2 * (355 / 113)) ∧
      (work_iter (⟨355 / 113, example_atan2f⟩ : gr_math ℚ) (example_block 1 0 0 3)
          (fun j => example_straddle (5 + j)) 0).2.2.head? = some log_line.switch_pos_neg) :=
  ⟨(cross_window_unwrap (⟨355 / 113, example_atan2f⟩ : gr_math ℚ) (example_block 1 0 0 (-3))
      (fun j => example_straddle (3 + j)) 0 (by decide) (by decide) (by decide) (by decide) 3
      (by norm_num [frame_start, unwrap_new_estimate, calc_ffe_estimate, calc_ffe_loop, to_uint, cp_length, to_int, uint_sub, uint_incr, UINT_RANGE,
      example_block, example_atan2f, example_straddle, gr_complex.add, gr_complex.mul, conj])).1
      (by norm_num [example_block]) (by norm_num [example_block]),
    (cross_window_unwrap (⟨355 / 113, example_atan2f⟩ : gr_math ℚ) (example_block 1 0 0 3)
      (fun j => example_straddle (5 + j)) 0 (by decide) (by decide) (by decide) (by decide) (-3)
      (by norm_num [frame_start, unwrap_new_estimate, calc_ffe_estimate, calc_ffe_loop, to_uint, cp_length, to_int, uint_sub, uint_incr, UINT_RANGE,
      example_block, example_atan2f, example_straddle, gr_complex.add, gr_complex.mul, conj])).2
      (by norm_num [example_block]) (by norm_num [example_block])⟩

/-- C8 at the example of the specification, over the reals with `M_PI` the number pi:
`num_symbols = 2` and the estimates 3 and -3 after a trigger. The sum becomes
`3 + (-3 + 2 * pi)` and the window average pi. -/
theorem within_window_unwrap_witness :
    (work (⟨Real.pi, example_atan2f⟩ : gr_math ℝ)
        (dab_make_ofdm_ffe_all_in_one 2 1 2 (1 / 10) 1) 3 example_straddle
        (example_input1 2)).1 = example_block 2 1 3 0 ∧
      (accumulate (⟨Real.pi, example_atan2f⟩ : gr_math ℝ)
        (frame_start (example_block 2 1 3 0) 0)
        (fun j => example_straddle (5 + j))).d_ffs_error_sum = 3 + (-3 + 2 * Real.pi) ∧
      (work_iter (⟨Real.pi, example_atan2f⟩ : gr_math ℝ) (example_block 2 1 3 0)
        (fun j => example_straddle (5 + j)) 0).1.d_ffs_error_sum = Real.pi := by
  have h := within_window_unwrap (⟨Real.pi, example_atan2f⟩ : gr_math ℝ) (example_block 2 1 3 0)
    (fun j => example_straddle (5 + j)) 0 (by decide) (by decide) (by decide) (-3) 3
    (3 + (-3 + 2 * Real.pi))
    (by norm_num [calc_ffe_estimate, calc_ffe_loop, to_uint, cp_length, to_int, uint_sub, UINT_RANGE,
      example_block, example_atan2f, example_straddle, gr_complex.add, gr_complex.mul, conj])
    (by norm_num [frame_start, example_block])
    (by
      have hc : (3 : ℝ) > 0 ∧ (-3 : ℝ) < 0 ∧
          (3 : ℝ) / (((frame_start (example_block 2 1 (3 : ℝ) 0) 0).d_cur_symbol : Nat) : ℝ) - -3 >
            (⟨Real.pi, example_atan2f⟩ : gr_math ℝ).M_PI := by
        refine ⟨by norm_num, by norm_num, ?_⟩
        norm_num [frame_start, example_block]
        linarith [Real.pi_le_four]
      rw [if_pos hc]
      ring)
  refine ⟨?_, h.1, ?_⟩
  · norm_num [work, work_loop, work_iter, count_sample, frame_start, new_symbol, accumulate,
      update_estimated_error, unwrap_new_estimate, calc_ffe_estimate, calc_ffe_loop, to_uint, cp_length,
      to_int, uint_sub, uint_incr, UINT_RANGE, dab_make_ofdm_ffe_all_in_one, example_block,
      example_atan2f, example_straddle, example_input1, gr_complex.add, gr_complex.mul, conj]
  · rw [h.2]
    norm_num [frame_start, example_block, uint_sub, UINT_RANGE]

/-- C13 at `symbol_length = 2`, five iterations with two triggers. -/
theorem sample_counter_invariant_witness :
    (work (⟨355 / 113, example_atan2f⟩ : gr_math ℚ)
      (dab_make_ofdm_ffe_all_in_one 2 1 2 (1 / 10) 1) 5 example_straddle
      (example_input1_twice 2 5)).1.d_cur_sample < 2 :=
  sample_counter_invariant (⟨355 / 113, example_atan2f⟩ : gr_math ℚ) 2 1 2 (1 / 10) 1
    example_straddle (example_input1_twice 2 5) 5 (by decide)

/-- C17 at a block whose window of one symbol is complete, with the clear trigger byte 0. -/
theorem idle_outside_window_witness :
    (work_iter (⟨355 / 113, example_atan2f⟩ : gr_math ℚ) (example_block 1 1 3 3)
        (fun j => example_straddle (5 + j)) 0).1.d_ffs_error_sum = 3 ∧
      (work_iter (⟨355 / 113, example_atan2f⟩ : gr_math ℚ) (example_block 1 1 3 3)
        (fun j => example_straddle (5 + j)) 0).1.d_estimated_error = 3 ∧
      (work_iter (⟨355 / 113, example_atan2f⟩ : gr_math ℚ) (example_block 1 1 3 3)
        (fun j => example_straddle (5 + j)) 0).2.2 = [] :=
  have h := idle_outside_window (⟨355 / 113, example_atan2f⟩ : gr_math ℚ)
    (example_block 1 1 3 3) (fun j => example_straddle (5 + j)) 0 (by decide) (by decide)
    (by decide)
  ⟨h.1, h.2.1, h.2.2.2.2.1⟩

/-- C18 at the running average 3 and the estimate -3, with `355/113` for `M_PI`: the
value added is `-3 + 2 * (355/113)`. -/
theorem unwrap_nearest_witness :
    ((-3 + 2 * (355 / 113) : ℚ) = -3 ∨ (-3 + 2 * (355 / 113) : ℚ) = -3 - 2 * (355 / 113) ∨
        (-3 + 2 * (355 / 113) : ℚ) = -3 + 2 * (355 / 113)) ∧
      |(-3 + 2 * (355 / 113) : ℚ) - 3| ≤ 355 / 113 :=
  unwrap_nearest (⟨355 / 113, example_atan2f⟩ : gr_math ℚ) (example_block 2 1 3 0)
    (fun j => example_straddle (5 + j)) (by decide) (by decide) (-3) 3 (-3 + 2 * (355 / 113))
    (by norm_num [calc_ffe_estimate, calc_ffe_loop, to_uint, cp_length, to_int, uint_sub, UINT_RANGE,
      example_block, example_atan2f, example_straddle, gr_complex.add, gr_complex.mul, conj])
    (by norm_num [example_block])
    (by norm_num [accumulate, unwrap_new_estimate, calc_ffe_estimate, calc_ffe_loop, to_uint, cp_length,
      to_int, uint_sub, UINT_RANGE, example_block, example_atan2f, example_straddle,
      gr_complex.add, gr_complex.mul, conj])
    (by norm_num) (by norm_num) (by norm_num) (by norm_num)

/-- C19 at a window of one symbol with the estimate 3, the published estimate 1 and
`alpha = 1/10`. -/
theorem smoothing_convex_witness :
    min (3 : ℚ) 1 ≤
        (work_iter (⟨355 / 113, example_atan2f⟩ : gr_math ℚ) (example_block 1 0 0 1)
          (fun j => example_straddle (3 + j)) 0).1.d_estimated_error ∧
      (work_iter (⟨355 / 113, example_atan2f⟩ : gr_math ℚ) (example_block 1 0 0 1)
          (fun j => example_straddle (3 + j)) 0).1.d_estimated_error ≤ max (3 : ℚ) 1 :=
  have h := smoothing_convex (⟨355 / 113, example_atan2f⟩ : gr_math ℚ) (example_block 1 0 0 1)
    (fun j => example_straddle (3 + j)) 0 (by decide) (by decide) (by decide) (by decide)
    (by norm_num [example_block]) (by norm_num [example_block]) 3 1
    (by norm_num [frame_start, unwrap_new_estimate, calc_ffe_estimate, calc_ffe_loop, to_uint,
      cp_length, to_int, uint_sub, UINT_RANGE, example_block, example_atan2f, example_straddle,
      gr_complex.add, gr_complex.mul, conj])
    (by norm_num [switch_detect, example_block])
  ⟨h.2.1, h.2.2.1⟩

/-- C14 as stated fails: with `symbol_length = 2` and `num_symbols = 1`, two iterations
without trigger from the state the constructor leaves give `d_cur_symbol = 2`. -/
theorem symbol_counter_range_counterexample :
    (work (⟨355 / 113, example_atan2f⟩ : gr_math ℚ)
        (dab_make_ofdm_ffe_all_in_one 2 1 1 (1 / 10) 1) 2 example_flat
        (fun _ => 0)).1.d_cur_symbol = 2 ∧
      (work (⟨355 / 113, example_atan2f⟩ : gr_math ℚ)
        (dab_make_ofdm_ffe_all_in_one 2 1 1 (1 / 10) 1) 2 example_flat
        (fun _ => 0)).1.d_num_symbols = 1 := by
  constructor <;>
  simp [work, work_loop, work_iter, count_sample, frame_start, new_symbol, accumulate,
    update_estimated_error, uint_sub, uint_incr, UINT_RANGE, dab_make_ofdm_ffe_all_in_one]

/-- The amended C14 at `symbol_length = 2`, `num_symbols = 1` and five iterations after a
trigger: `d_cur_symbol` is 2. -/
theorem symbol_counter_after_trigger_witness :
    (work (⟨355 / 113, example_atan2f⟩ : gr_math ℚ)
        (dab_make_ofdm_ffe_all_in_one 2 1 1 (1 / 10) 1) 5 example_flat
        (example_input1 2)).1.d_cur_symbol = 5 / 2 ∧
      ((work (⟨355 / 113, example_atan2f⟩ : gr_math ℚ)
        (dab_make_ofdm_ffe_all_in_one 2 1 1 (1 / 10) 1) 5 example_flat
        (example_input1 2)).1.d_cur_symbol ≤ 1 ↔ 5 < (1 + 1) * 2) :=
  symbol_counter_after_trigger (⟨355 / 113, example_atan2f⟩ : gr_math ℚ)
    (dab_make_ofdm_ffe_all_in_one 2 1 1 (1 / 10) 1) example_flat (example_input1 2)
    (by decide) (by decide) (by decide)
    (by intro i hi; simp [example_input1, dab_make_ofdm_ffe_all_in_one]; omega) 5 (by decide)
    (by decide)

/-- C16 as stated fails at `k = num_symbols`: with `symbol_length = 2`, `num_symbols = 2`
and the estimates 3 and -3, with `355/113` for `M_PI`, the block after the four iterations
of the window has `d_cur_symbol = 2` and `d_ffs_error_sum = 355/113`, while the running sum
of the two unwrapped estimates is `710/113`. -/
theorem accumulator_at_completion_counterexample :
    (work (⟨355 / 113, example_atan2f⟩ : gr_math ℚ)
        (dab_make_ofdm_ffe_all_in_one 2 1 2 (1 / 10) 1) 4 example_straddle
        (example_input1 2)).1.d_cur_symbol = 2 ∧
      (work (⟨355 / 113, example_atan2f⟩ : gr_math ℚ)
        (dab_make_ofdm_ffe_all_in_one 2 1 2 (1 / 10) 1) 4 example_straddle
        (example_input1 2)).1.d_ffs_error_sum = 355 / 113 ∧
      spec_running_sum (355 / 113 : ℚ)
        (symbol_estimate (⟨355 / 113, example_atan2f⟩ : gr_math ℚ)
          (dab_make_ofdm_ffe_all_in_one 2 1 2 (1 / 10) 1) example_straddle) 2 = 710 / 113 ∧
      (work (⟨355 / 113, example_atan2f⟩ : gr_math ℚ)
        (dab_make_ofdm_ffe_all_in_one 2 1 2 (1 / 10) 1) 4 example_straddle
        (example_input1 2)).1.d_ffs_error_sum ≠
        spec_running_sum (355 / 113 : ℚ)
          (symbol_estimate (⟨355 / 113, example_atan2f⟩ : gr_math ℚ)
            (dab_make_ofdm_ffe_all_in_one 2 1 2 (1 / 10) 1) example_straddle) 2 := by
  have hsum : (work (⟨355 / 113, example_atan2f⟩ : gr_math ℚ)
      (dab_make_ofdm_ffe_all_in_one 2 1 2 (1 / 10) 1) 4 example_straddle
      (example_input1 2)).1.d_ffs_error_sum = 355 / 113 := by
    norm_num [work, work_loop, work_iter, count_sample, frame_start, new_symbol, accumulate,
      update_estimated_error, unwrap_new_estimate, calc_ffe_estimate, calc_ffe_loop, to_uint,
      cp_length, to_int, uint_sub, uint_incr, UINT_RANGE, dab_make_ofdm_ffe_all_in_one,
      example_atan2f, example_straddle, example_input1, gr_complex.add, gr_complex.mul, conj]
  have hspec : spec_running_sum (355 / 113 : ℚ)
      (symbol_estimate (⟨355 / 113, example_atan2f⟩ : gr_math ℚ)
        (dab_make_ofdm_ffe_all_in_one 2 1 2 (1 / 10) 1) example_straddle) 2 = 710 / 113 := by
    norm_num [spec_running_sum, spec_unwrapped_estimate, symbol_estimate, calc_ffe_estimate,
      calc_ffe_loop, to_uint, cp_length, to_int, uint_sub, UINT_RANGE, dab_make_ofdm_ffe_all_in_one,
      example_atan2f, example_straddle, gr_complex.add, gr_complex.mul, conj]
  refine ⟨?_, hsum, hspec, ?_⟩
  · simp [work, work_loop, work_iter, count_sample, frame_start, new_symbol, accumulate,
      update_estimated_error, uint_sub, uint_incr, UINT_RANGE, dab_make_ofdm_ffe_all_in_one,
      example_input1]
  · rw [hsum, hspec]
    norm_num

/-- The amended C16 on the same stream after three iterations, inside the window:
`d_cur_symbol = 1` and `d_ffs_error_sum` is the running sum of one estimate. -/
theorem accumulator_invariant_witness :
    ((work (⟨355 / 113, example_atan2f⟩ : gr_math ℚ)
        (dab_make_ofdm_ffe_all_in_one 2 1 2 (1 / 10) 1) 3 example_straddle
        (example_input1 2)).1.d_cur_symbol <
        (dab_make_ofdm_ffe_all_in_one 2 1 2 (1 / 10 : ℚ) 1).d_num_symbols →
      (work (⟨355 / 113, example_atan2f⟩ : gr_math ℚ)
        (dab_make_ofdm_ffe_all_in_one 2 1 2 (1 / 10) 1) 3 example_straddle
        (example_input1 2)).1.d_ffs_error_sum =
        spec_running_sum (355 / 113 : ℚ)
          (symbol_estimate (⟨355 / 113, example_atan2f⟩ : gr_math ℚ)
            (dab_make_ofdm_ffe_all_in_one 2 1 2 (1 / 10) 1) example_straddle)
          (work (⟨355 / 113, example_atan2f⟩ : gr_math ℚ)
            (dab_make_ofdm_ffe_all_in_one 2 1 2 (1 / 10) 1) 3 example_straddle
            (example_input1 2)).1.d_cur_symbol) ∧
      (work (⟨355 / 113, example_atan2f⟩ : gr_math ℚ)
        (dab_make_ofdm_ffe_all_in_one 2 1 2 (1 / 10) 1) 3 example_straddle
        (example_input1 2)).1.d_cur_symbol = 1 :=
  ⟨(accumulator_invariant (⟨355 / 113, example_atan2f⟩ : gr_math ℚ)
      (dab_make_ofdm_ffe_all_in_one 2 1 2 (1 / 10) 1) example_straddle (example_input1 2)
      (by decide) (by decide) (by decide) (by decide) (by decide)
      (by intro i hi; simp [example_input1, dab_make_ofdm_ffe_all_in_one]; omega) 3
      (by decide) (by decide)
      (by simp [work, work_loop, work_iter, count_sample, frame_start, new_symbol, accumulate,
        update_estimated_error, uint_sub, uint_incr, UINT_RANGE, dab_make_ofdm_ffe_all_in_one,
        example_input1])).1,
    by simp [work, work_loop, work_iter, count_sample, frame_start, new_symbol, accumulate,
      update_estimated_error, uint_sub, uint_incr, UINT_RANGE, dab_make_ofdm_ffe_all_in_one,
      example_input1]⟩

end examples
end GrDab
